import Mathlib

/-!
# Verification of the `jk` Jenkins CLI core against its specification

This file shallowly embeds the parts of the `jk` Jenkins command-line client
that the specification's checkable claims are about:

* the result-to-exit-code table (`exitCodeForResult`),
* the crumb-retry policy of the HTTP engine (`Client.execute` / `ensureCrumb`),
* run-cursor encoding and decoding (`encodeRunCursor` / `decodeRunCursor`,
  including Go's `encoding/json` marshalling of the payload struct and
  URL-safe raw base64),
* the run-list pipeline (`processRunList`, `inspectRun`,
  `extractParametersFromSummary`, `extractCausesFromSummary`),
* cause classification (`classifyCause`),
* the progressive-log snapshot loop (`CollectLogSnapshot`),
* queue-to-build resolution (`waitForBuildNumber`),
* the job discovery walker (`discoverJobs` / `walkAndAddAllBranches`).

Modelling conventions:

* Go strings are modelled as Lean `String` (sequences of Unicode scalar
  values).  Byte-level operations (base64, UTF-8) work on `List Nat` with
  values `< 256`.
* Go `int`/`int64` are modelled as `Int`; no arithmetic in the modelled code
  can overflow, so no wrap-around is introduced.
* Go maps are modelled as association lists whose `set` operation overwrites
  the binding in place, preserving first-insertion order; lookups and
  membership agree with Go map semantics.
* Fallible code returns `Except String`; error strings follow the source.
* `strings.ToUpper`/`ToLower`/`TrimSpace` are modelled on the ASCII subset
  (the full Unicode case tables are identity outside ASCII in this model);
  every string constant the embedded code compares against is ASCII.
* Real time (poll deadlines) is abstracted by a poll budget: the number of
  loop iterations that complete before the wall-clock deadline passes.
-/

namespace JK

/-! ## Go string primitives (ASCII model) -/

/-- `strings.ToUpper`, restricted to ASCII case mapping. -/
def goUpperChar (c : Char) : Char :=
  if 'a' ≤ c ∧ c ≤ 'z' then Char.ofNat (c.toNat - 32) else c

/-- `strings.ToLower`, restricted to ASCII case mapping. -/
def goLowerChar (c : Char) : Char :=
  if 'A' ≤ c ∧ c ≤ 'Z' then Char.ofNat (c.toNat + 32) else c

/-- `strings.ToUpper` on strings. -/
def goToUpper (s : String) : String := String.mk (s.data.map goUpperChar)

/-- `strings.ToLower` on strings. -/
def goToLower (s : String) : String := String.mk (s.data.map goLowerChar)

/-- ASCII whitespace characters recognised by `strings.TrimSpace`. -/
def isGoSpace (c : Char) : Bool :=
  c = ' ' ∨ c = '\t' ∨ c = '\n' ∨ c = '\r' ∨ c = (Char.ofNat 11) ∨ c = (Char.ofNat 12)

/-- `strings.TrimSpace` (ASCII model). -/
def goTrimSpace (s : String) : String :=
  String.mk ((s.data.dropWhile isGoSpace).reverse.dropWhile isGoSpace |>.reverse)

/-- Drop characters of `cutset` from both ends: `strings.Trim(s, cut)`,
specialised to a single cut character (the source only uses `"/"`). -/
def goTrimChar (s : String) (cut : Char) : String :=
  String.mk ((s.data.dropWhile (· = cut)).reverse.dropWhile (· = cut) |>.reverse)

/-- Does `needle` occur as a contiguous sublist of `hay`?  Underlies
`strings.Contains`. -/
def listHasInfix (hay needle : List Char) : Bool :=
  match hay with
  | [] => needle.isEmpty
  | _ :: tl => needle.isPrefixOf hay || listHasInfix tl needle

/-- `strings.Contains`. -/
def goContains (s sub : String) : Bool := listHasInfix s.data sub.data

/-! ## C1: result → exit code -/

/-- `exitCodeForResult` (run command, trigger-follow state machine).  The Go
`switch` is a sequence of equality tests on `strings.ToUpper(result)`. -/
def exitCodeForResult (result : String) : Int :=
  let r := goToUpper result
  if r = "SUCCESS" then 0
  else if r = "UNSTABLE" then 10
  else if r = "FAILURE" then 11
  else if r = "ABORTED" then 12
  else if r = "NOT_BUILT" then 13
  else 0

/-- The spec's §4.7 exit-code table, written as the spec states it: a lookup
table over uppercased results with default `0`. -/
def specExitTable : List (String × Int) :=
  [("SUCCESS", 0), ("UNSTABLE", 10), ("FAILURE", 11), ("ABORTED", 12), ("NOT_BUILT", 13)]

/-- Spec-side rendering of the exit-code table: uppercase the input, look it
up, and default to `0` for anything else. -/
def specExitCodeForResult (result : String) : Int :=
  match (specExitTable.lookup (goToUpper result)) with
  | some code => code
  | none => 0

/-- C1: `exitCodeForResult` is total (it is a Lean function on all of
`String`) and agrees everywhere with the spec's §4.7 table: SUCCESS ↦ 0,
UNSTABLE ↦ 10, FAILURE ↦ 11, ABORTED ↦ 12, NOT_BUILT ↦ 13, anything else
(including the empty string) ↦ 0. -/
theorem c1_exitCodeForResult_matches_table (result : String) :
    exitCodeForResult result = specExitCodeForResult result := by
  unfold exitCodeForResult specExitCodeForResult specExitTable
  simp only [List.lookup]
  split_ifs with h1 h2 h3 h4 h5
  · simp [h1]
  · simp [h1, h2]
  · simp [h1, h2, h3]
  · simp [h1, h2, h3, h4]
  · simp [h1, h2, h3, h4, h5]
  · rw [beq_eq_false_iff_ne.mpr h1, beq_eq_false_iff_ne.mpr h2, beq_eq_false_iff_ne.mpr h3,
      beq_eq_false_iff_ne.mpr h4, beq_eq_false_iff_ne.mpr h5]

/-! ## URL-safe raw base64 (`encoding/base64` `RawURLEncoding`)

Bytes are `Nat` values `< 256`.  Encoding has no padding; decoding is
lenient about unused trailing bits, as Go's default decoder is. -/

/-- Character of the URL-safe base64 alphabet at index `v < 64`. -/
def b64Chr (v : Nat) : Char :=
  if v < 26 then Char.ofNat (65 + v)
  else if v < 52 then Char.ofNat (97 + (v - 26))
  else if v < 62 then Char.ofNat (48 + (v - 52))
  else if v = 62 then '-'
  else '_'

/-- Index of a character in the URL-safe base64 alphabet. -/
def b64Val (c : Char) : Option Nat :=
  if 'A' ≤ c ∧ c ≤ 'Z' then some (c.toNat - 65)
  else if 'a' ≤ c ∧ c ≤ 'z' then some (c.toNat - 97 + 26)
  else if '0' ≤ c ∧ c ≤ '9' then some (c.toNat - 48 + 52)
  else if c = '-' then some 62
  else if c = '_' then some 63
  else none

/-- `base64.RawURLEncoding.EncodeToString`, at the level of byte lists. -/
def b64Encode : List Nat → List Char
  | a :: b :: c :: rest =>
      b64Chr (a / 4) :: b64Chr ((a % 4) * 16 + b / 16) ::
        b64Chr ((b % 16) * 4 + c / 64) :: b64Chr (c % 64) :: b64Encode rest
  | [a, b] => [b64Chr (a / 4), b64Chr ((a % 4) * 16 + b / 16), b64Chr ((b % 16) * 4)]
  | [a] => [b64Chr (a / 4), b64Chr ((a % 4) * 16)]
  | [] => []

/-- `base64.RawURLEncoding.DecodeString`, at the level of byte lists. -/
def b64Decode : List Char → Except String (List Nat)
  | [] => .ok []
  | [_] => .error "illegal base64 data at input byte 0"
  | [c1, c2] =>
      match b64Val c1, b64Val c2 with
      | some v1, some v2 => .ok [v1 * 4 + v2 / 16]
      | _, _ => .error "illegal base64 data at input byte 0"
  | [c1, c2, c3] =>
      match b64Val c1, b64Val c2, b64Val c3 with
      | some v1, some v2, some v3 => .ok [v1 * 4 + v2 / 16, (v2 % 16) * 16 + v3 / 4]
      | _, _, _ => .error "illegal base64 data at input byte 0"
  | c1 :: c2 :: c3 :: c4 :: rest =>
      match b64Val c1, b64Val c2, b64Val c3, b64Val c4, b64Decode rest with
      | some v1, some v2, some v3, some v4, .ok tail =>
          .ok ([v1 * 4 + v2 / 16, (v2 % 16) * 16 + v3 / 4, (v3 % 4) * 64 + v4] ++ tail)
      | _, _, _, _, _ => .error "illegal base64 data at input byte 0"

theorem b64Val_b64Chr_fin : ∀ v : Fin 64, b64Val (b64Chr v.val) = some v.val := by decide

theorem b64Val_b64Chr {v : Nat} (h : v < 64) : b64Val (b64Chr v) = some v :=
  b64Val_b64Chr_fin ⟨v, h⟩

/-- Decoding inverts encoding on byte lists. -/
theorem b64Decode_b64Encode :
    ∀ bs : List Nat, (∀ b ∈ bs, b < 256) → b64Decode (b64Encode bs) = .ok bs
  | [], _ => rfl
  | [a], h => by
      have ha : a < 256 := h a (by simp)
      simp only [b64Encode, b64Decode]
      rw [b64Val_b64Chr (by omega), b64Val_b64Chr (by omega)]
      simp only [Except.ok.injEq, List.cons.injEq, and_true]
      omega
  | [a, b], h => by
      have ha : a < 256 := h a (by simp)
      have hb : b < 256 := h b (by simp)
      simp only [b64Encode, b64Decode]
      rw [b64Val_b64Chr (by omega), b64Val_b64Chr (by omega), b64Val_b64Chr (by omega)]
      simp only [Except.ok.injEq, List.cons.injEq, and_true]
      constructor <;> omega
  | a :: b :: c :: rest, h => by
      have ha : a < 256 := h a (by simp)
      have hb : b < 256 := h b (by simp)
      have hc : c < 256 := h c (by simp)
      have ih := b64Decode_b64Encode rest (fun x hx => h x (by simp [hx]))
      -- the encoded tail keeps the 4-character grouping, so the first four
      -- characters are consumed as one quantum
      simp only [b64Encode, b64Decode]
      rw [b64Val_b64Chr (by omega), b64Val_b64Chr (by omega), b64Val_b64Chr (by omega),
        b64Val_b64Chr (by omega), ih]
      simp only [List.cons_append, List.nil_append, Except.ok.injEq, List.cons.injEq, and_true]
      omega

/-! ## UTF-8 (Go strings are UTF-8 byte sequences)

`encodeRunCursor` marshals to bytes before base64; the model makes the
string→byte step explicit.  Decoding rejects malformed sequences (Go's JSON
decoder would instead substitute U+FFFD; no claim depends on malformed
input). -/

/-- UTF-8 encoding of one Unicode scalar value `n` (helper for
`utf8EncodeChar`). -/
def utf8EncodeNat (n : Nat) : List Nat :=
  if n < 0x80 then [n]
  else if n < 0x800 then [0xC0 + n / 64, 0x80 + n % 64]
  else if n < 0x10000 then [0xE0 + n / 4096, 0x80 + (n / 64) % 64, 0x80 + n % 64]
  else [0xF0 + n / 262144, 0x80 + (n / 4096) % 64, 0x80 + (n / 64) % 64, 0x80 + n % 64]

/-- UTF-8 encoding of one character. -/
def utf8EncodeChar (c : Char) : List Nat := utf8EncodeNat c.toNat

/-- UTF-8 encoding of a character list. -/
def utf8Encode (cs : List Char) : List Nat := (cs.map utf8EncodeChar).flatten

/-- Decode the tail of a two-byte UTF-8 sequence with lead byte `b1`. -/
def utf8Tail2 (b1 : Nat) : List Nat → Except String (Char × List Nat)
  | b2 :: rest2 =>
      if 0x80 ≤ b2 ∧ b2 < 0xC0 then .ok (Char.ofNat ((b1 - 0xC0) * 64 + (b2 - 0x80)), rest2)
      else .error "invalid UTF-8"
  | _ => .error "invalid UTF-8"

/-- Decode the tail of a three-byte UTF-8 sequence with lead byte `b1`. -/
def utf8Tail3 (b1 : Nat) : List Nat → Except String (Char × List Nat)
  | b2 :: b3 :: rest3 =>
      if (0x80 ≤ b2 ∧ b2 < 0xC0) ∧ (0x80 ≤ b3 ∧ b3 < 0xC0) then
        if (b1 - 0xE0) * 4096 + (b2 - 0x80) * 64 + (b3 - 0x80) < 0x800 ∨
            (0xD800 ≤ (b1 - 0xE0) * 4096 + (b2 - 0x80) * 64 + (b3 - 0x80) ∧
              (b1 - 0xE0) * 4096 + (b2 - 0x80) * 64 + (b3 - 0x80) ≤ 0xDFFF) then
          .error "invalid UTF-8"
        else .ok (Char.ofNat ((b1 - 0xE0) * 4096 + (b2 - 0x80) * 64 + (b3 - 0x80)), rest3)
      else .error "invalid UTF-8"
  | _ => .error "invalid UTF-8"

/-- Decode the tail of a four-byte UTF-8 sequence with lead byte `b1`. -/
def utf8Tail4 (b1 : Nat) : List Nat → Except String (Char × List Nat)
  | b2 :: b3 :: b4 :: rest4 =>
      if (0x80 ≤ b2 ∧ b2 < 0xC0) ∧ (0x80 ≤ b3 ∧ b3 < 0xC0) ∧ (0x80 ≤ b4 ∧ b4 < 0xC0) then
        if (b1 - 0xF0) * 262144 + (b2 - 0x80) * 4096 + (b3 - 0x80) * 64 + (b4 - 0x80) < 0x10000 ∨
            0x110000 ≤ (b1 - 0xF0) * 262144 + (b2 - 0x80) * 4096 + (b3 - 0x80) * 64 + (b4 - 0x80) then
          .error "invalid UTF-8"
        else
          .ok (Char.ofNat
            ((b1 - 0xF0) * 262144 + (b2 - 0x80) * 4096 + (b3 - 0x80) * 64 + (b4 - 0x80)), rest4)
      else .error "invalid UTF-8"
  | _ => .error "invalid UTF-8"

/-- Decode a single UTF-8 sequence whose lead byte is `b1` and whose
remaining input is `rest`; returns the decoded character and the rest of the
input.  Strict: rejects overlong forms, surrogates, and out-of-range
values. -/
def utf8DecodeStep (b1 : Nat) (rest : List Nat) : Except String (Char × List Nat) :=
  if b1 < 0x80 then .ok (Char.ofNat b1, rest)
  else if b1 < 0xC2 then .error "invalid UTF-8"
  else if b1 < 0xE0 then utf8Tail2 b1 rest
  else if b1 < 0xF0 then utf8Tail3 b1 rest
  else if b1 < 0xF5 then utf8Tail4 b1 rest
  else .error "invalid UTF-8"

theorem utf8Tail2_length {b1 : Nat} {rest : List Nat} {c : Char} {rest' : List Nat}
    (h : utf8Tail2 b1 rest = .ok (c, rest')) : rest'.length ≤ rest.length := by
  unfold utf8Tail2 at h
  split at h
  · split_ifs at h <;> simp only [Except.ok.injEq, Prod.mk.injEq] at h <;>
      (obtain ⟨h1, h2⟩ := h; subst h2; simp only [List.length_cons]; omega)
  · cases h

theorem utf8Tail3_length {b1 : Nat} {rest : List Nat} {c : Char} {rest' : List Nat}
    (h : utf8Tail3 b1 rest = .ok (c, rest')) : rest'.length ≤ rest.length := by
  unfold utf8Tail3 at h
  split at h
  · split_ifs at h <;> simp only [Except.ok.injEq, Prod.mk.injEq] at h <;>
      (obtain ⟨h1, h2⟩ := h; subst h2; simp only [List.length_cons]; omega)
  · cases h

theorem utf8Tail4_length {b1 : Nat} {rest : List Nat} {c : Char} {rest' : List Nat}
    (h : utf8Tail4 b1 rest = .ok (c, rest')) : rest'.length ≤ rest.length := by
  unfold utf8Tail4 at h
  split at h
  · split_ifs at h <;> simp only [Except.ok.injEq, Prod.mk.injEq] at h <;>
      (obtain ⟨h1, h2⟩ := h; subst h2; simp only [List.length_cons]; omega)
  · cases h

/-- A successful decode step consumes only input: the remainder is a suffix
no longer than `rest`. -/
theorem utf8DecodeStep_length {b1 : Nat} {rest : List Nat} {c : Char} {rest' : List Nat}
    (h : utf8DecodeStep b1 rest = .ok (c, rest')) : rest'.length ≤ rest.length := by
  unfold utf8DecodeStep at h
  split_ifs at h
  · cases h; exact le_refl _
  · exact utf8Tail2_length h
  · exact utf8Tail3_length h
  · exact utf8Tail4_length h

/-- Fuelled UTF-8 decoding driver.  `fuel` bounds the number of decoded
characters; since every character consumes at least its lead byte, the input
length is always enough fuel. -/
def utf8DecodeAux : Nat → List Nat → Except String (List Char)
  | _, [] => .ok []
  | 0, _ :: _ => .error "invalid UTF-8"
  | fuel + 1, b1 :: rest =>
    match utf8DecodeStep b1 rest with
    | .ok (c, rest') =>
        match utf8DecodeAux fuel rest' with
        | .ok cs => .ok (c :: cs)
        | .error e => .error e
    | .error e => .error e

/-- UTF-8 decoding of a byte list. -/
def utf8Decode (l : List Nat) : Except String (List Char) := utf8DecodeAux l.length l

/-- The driver does not depend on the exact fuel, as long as it dominates
the input length. -/
theorem utf8DecodeAux_fuel :
    ∀ (f1 f2 : Nat) (l : List Nat), l.length ≤ f1 → l.length ≤ f2 →
      utf8DecodeAux f1 l = utf8DecodeAux f2 l := by
  intro f1
  induction f1 with
  | zero =>
      intro f2 l h1 _
      have : l = [] := List.eq_nil_of_length_eq_zero (Nat.le_zero.mp h1)
      subst this
      cases f2 <;> rfl
  | succ f ih =>
      intro f2 l h1 h2
      cases l with
      | nil => cases f2 <;> rfl
      | cons b1 rest =>
          cases f2 with
          | zero => simp at h2
          | succ f2' =>
              simp only [utf8DecodeAux]
              cases hstep : utf8DecodeStep b1 rest with
              | ok pr =>
                  obtain ⟨c, rest'⟩ := pr
                  have hlen := utf8DecodeStep_length hstep
                  simp only [List.length_cons] at h1 h2
                  simp only [ih f2' rest' (by omega) (by omega)]
              | error e => rfl

theorem char_toNat_lt (c : Char) : c.toNat < 1114112 := by
  rcases c.valid with h | h
  · exact Nat.lt_trans h (by norm_num)
  · exact h.2

theorem utf8EncodeChar_lt_256 (c : Char) : ∀ b ∈ utf8EncodeChar c, b < 256 := by
  have hv := char_toNat_lt c
  intro b hb
  unfold utf8EncodeChar utf8EncodeNat at hb
  split_ifs at hb <;> simp_all <;> omega

/-- Unfolding the decode driver one character at a time. -/
theorem utf8DecodeAux_cons {fuel b1 : Nat} {rs rest : List Nat} {c : Char}
    (hstep : utf8DecodeStep b1 rs = .ok (c, rest)) (hfuel : rest.length ≤ fuel) :
    utf8DecodeAux (fuel + 1) (b1 :: rs) =
      match utf8Decode rest with
      | .ok cs => .ok (c :: cs)
      | .error e => .error e := by
  simp only [utf8DecodeAux, hstep]
  rw [utf8DecodeAux_fuel fuel rest.length rest hfuel (le_refl _)]
  rfl

theorem utf8Decode_utf8EncodeChar (c : Char) (rest : List Nat) :
    utf8Decode (utf8EncodeChar c ++ rest) =
      match utf8Decode rest with
      | .ok cs => .ok (c :: cs)
      | .error e => .error e := by
  have hval : c.toNat < 55296 ∨ (57343 < c.toNat ∧ c.toNat < 1114112) := c.valid
  by_cases h1 : c.toNat < 128
  · rw [show utf8EncodeChar c = [c.toNat] from by
      unfold utf8EncodeChar utf8EncodeNat; rw [if_pos h1]]
    unfold utf8Decode
    simp only [List.cons_append, List.nil_append, List.length_cons]
    refine utf8DecodeAux_cons ?_ (le_refl _)
    unfold utf8DecodeStep
    rw [if_pos h1, Char.ofNat_toNat]
  · by_cases h2 : c.toNat < 2048
    · rw [show utf8EncodeChar c = [0xC0 + c.toNat / 64, 0x80 + c.toNat % 64] from by
        unfold utf8EncodeChar utf8EncodeNat; rw [if_neg h1, if_pos h2]]
      unfold utf8Decode
      simp only [List.cons_append, List.nil_append, List.length_cons]
      refine utf8DecodeAux_cons ?_ (by omega)
      unfold utf8DecodeStep
      rw [if_neg (by omega), if_neg (by omega), if_pos (by omega)]
      simp only [utf8Tail2]
      rw [if_pos (by omega)]
      rw [show (0xC0 + c.toNat / 64 - 0xC0) * 64 + (0x80 + c.toNat % 64 - 0x80) = c.toNat from by
        omega]
      rw [Char.ofNat_toNat]
    · by_cases h3 : c.toNat < 65536
      · rw [show utf8EncodeChar c =
            [0xE0 + c.toNat / 4096, 0x80 + (c.toNat / 64) % 64, 0x80 + c.toNat % 64] from by
          unfold utf8EncodeChar utf8EncodeNat; rw [if_neg h1, if_neg h2, if_pos h3]]
        unfold utf8Decode
        simp only [List.cons_append, List.nil_append, List.length_cons]
        refine utf8DecodeAux_cons ?_ (by omega)
        unfold utf8DecodeStep
        rw [if_neg (by omega), if_neg (by omega), if_neg (by omega), if_pos (by omega)]
        simp only [utf8Tail3]
        rw [if_pos (by omega), if_neg (by omega)]
        rw [show (0xE0 + c.toNat / 4096 - 0xE0) * 4096 + (0x80 + c.toNat / 64 % 64 - 0x80) * 64 +
            (0x80 + c.toNat % 64 - 0x80) = c.toNat from by omega]
        rw [Char.ofNat_toNat]
      · rw [show utf8EncodeChar c =
            [0xF0 + c.toNat / 262144, 0x80 + (c.toNat / 4096) % 64, 0x80 + (c.toNat / 64) % 64,
              0x80 + c.toNat % 64] from by
          unfold utf8EncodeChar utf8EncodeNat; rw [if_neg h1, if_neg h2, if_neg h3]]
        unfold utf8Decode
        simp only [List.cons_append, List.nil_append, List.length_cons]
        refine utf8DecodeAux_cons ?_ (by omega)
        unfold utf8DecodeStep
        rw [if_neg (by omega), if_neg (by omega), if_neg (by omega), if_neg (by omega),
          if_pos (by omega)]
        simp only [utf8Tail4]
        rw [if_pos (by omega), if_neg (by omega)]
        rw [show (0xF0 + c.toNat / 262144 - 0xF0) * 262144 + (0x80 + c.toNat / 4096 % 64 - 0x80) *
            4096 + (0x80 + c.toNat / 64 % 64 - 0x80) * 64 + (0x80 + c.toNat % 64 - 0x80) =
            c.toNat from by omega]
        rw [Char.ofNat_toNat]

/-- UTF-8 decoding inverts encoding. -/
theorem utf8Decode_utf8Encode (cs : List Char) : utf8Decode (utf8Encode cs) = .ok cs := by
  induction cs with
  | nil => rfl
  | cons c tl ih =>
      have : utf8Encode (c :: tl) = utf8EncodeChar c ++ utf8Encode tl := by
        simp [utf8Encode]
      rw [this, utf8Decode_utf8EncodeChar, ih]

theorem utf8Encode_lt_256 (cs : List Char) : ∀ b ∈ utf8Encode cs, b < 256 := by
  induction cs with
  | nil => simp [utf8Encode]
  | cons c tl ih =>
      intro b hb
      simp only [utf8Encode, List.map_cons, List.flatten_cons, List.mem_append] at hb
      rcases hb with hb | hb
      · exact utf8EncodeChar_lt_256 c b hb
      · exact ih b hb

/-! ## Go `encoding/json` for the cursor payload

`runCursorPayload` is
`struct { JobPath string `json:"jobPath,omitempty"`; Number int64 `json:"number"` }`.
`json.Marshal` HTML-escapes `<`, `>`, `&`; `omitempty` drops an empty
`JobPath`.  `json.Unmarshal` matches keys case-insensitively, ignores unknown
keys, allows `null`, and requires a string for `JobPath` and a plain integer
for `Number`. -/

/-- Pagination cursor payload. -/
structure runCursorPayload where
  JobPath : String
  Number : Int
deriving Repr, DecidableEq

/-- Lower-case hex digit (Go's `encoding/json` uses lower-case hex in
`\u00xx` escapes). -/
def hexDigit (v : Nat) : Char :=
  if v < 10 then Char.ofNat (48 + v) else Char.ofNat (87 + v)

/-- Hex digit value (both cases), for `\uXXXX` escapes. -/
def hexVal (c : Char) : Option Nat :=
  if '0' ≤ c ∧ c ≤ '9' then some (c.toNat - 48)
  else if 'a' ≤ c ∧ c ≤ 'f' then some (c.toNat - 97 + 10)
  else if 'A' ≤ c ∧ c ≤ 'F' then some (c.toNat - 65 + 10)
  else none

/-- How `encoding/json` writes one character of a string value
(HTML-escaping enabled, as under plain `json.Marshal`). -/
def jsonEscapeChar (c : Char) : List Char :=
  if c = '"' then ['\\', '"']
  else if c = '\\' then ['\\', '\\']
  else if c = '\n' then ['\\', 'n']
  else if c = '\r' then ['\\', 'r']
  else if c = '\t' then ['\\', 't']
  else if c.toNat < 0x20 ∨ c = '<' ∨ c = '>' ∨ c = '&' then
    ['\\', 'u', '0', '0', hexDigit (c.toNat / 16), hexDigit (c.toNat % 16)]
  else if c.toNat = 0x2028 ∨ c.toNat = 0x2029 then
    ['\\', 'u', '2', '0', '2', hexDigit (c.toNat % 16)]
  else [c]

/-- A JSON string literal (quotes included). -/
def jsonQuote (s : String) : List Char :=
  '"' :: (s.data.map jsonEscapeChar).flatten ++ ['"']

/-- Decimal digits of a natural number, most significant first. -/
def natToDecimal (n : Nat) : List Char :=
  if h : n < 10 then [Char.ofNat (48 + n)]
  else natToDecimal (n / 10) ++ [Char.ofNat (48 + n % 10)]
  termination_by n
  decreasing_by omega

/-- Decimal rendering of an integer (as `json.Marshal` writes an `int64`). -/
def intToDecimal (n : Int) : List Char :=
  if n < 0 then '-' :: natToDecimal n.natAbs else natToDecimal n.natAbs

/-- `json.Marshal` of a `runCursorPayload` (field order follows the struct;
`omitempty` drops an empty `JobPath`). -/
def jsonEncodePayload (p : runCursorPayload) : List Char :=
  if p.JobPath = "" then
    "\x7b\"number\":".data ++ intToDecimal p.Number ++ ['}']
  else
    "\x7b\"jobPath\":".data ++ jsonQuote p.JobPath ++ (',' :: "\"number\":".data) ++
      intToDecimal p.Number ++ ['}']

/-- JSON whitespace. -/
def isJsonWs (c : Char) : Bool := c = ' ' ∨ c = '\t' ∨ c = '\n' ∨ c = '\r'

/-- Skip JSON whitespace. -/
def skipWs (l : List Char) : List Char := l.dropWhile isJsonWs

/-- Single-character escapes accepted after a backslash in a JSON string. -/
def jsonEscMap (c : Char) : Option Char :=
  if c = '"' then some '"'
  else if c = '\\' then some '\\'
  else if c = '/' then some '/'
  else if c = 'b' then some (Char.ofNat 8)
  else if c = 'f' then some (Char.ofNat 12)
  else if c = 'n' then some '\n'
  else if c = 'r' then some '\r'
  else if c = 't' then some '\t'
  else none

/-- One token of a JSON string body: the closing quote, one decoded
character, or an error. -/
inductive StrTok where
  | done (rest : List Char)
  | chr (c : Char) (rest : List Char)
  | fail (e : String)
deriving Repr, DecidableEq

/-- Decode one `\uXXXX` escape (input starts after the `\u`).  Surrogate
halves decode to U+FFFD (Go combines valid pairs and substitutes U+FFFD for
stray halves; the marshaller never emits surrogate escapes, and no claim
exercises them). -/
def parseUTok : List Char → StrTok
  | h1 :: h2 :: h3 :: h4 :: rest3 =>
    match hexVal h1, hexVal h2, hexVal h3, hexVal h4 with
    | some a, some b, some c, some d =>
        if 0xD800 ≤ ((a * 16 + b) * 16 + c) * 16 + d ∧
            ((a * 16 + b) * 16 + c) * 16 + d ≤ 0xDFFF then
          .chr (Char.ofNat 0xFFFD) rest3
        else .chr (Char.ofNat (((a * 16 + b) * 16 + c) * 16 + d)) rest3
    | _, _, _, _ => .fail "invalid character in string escape code"
  | _ => .fail "unexpected end of JSON input"

/-- Decode one escape sequence (input starts after the backslash). -/
def parseEscapeTok : List Char → StrTok
  | [] => .fail "unexpected end of JSON input"
  | e :: rest2 =>
    if e = 'u' then parseUTok rest2
    else
      match jsonEscMap e with
      | some decoded => .chr decoded rest2
      | none => .fail "invalid character in string escape code"

/-- Read one token of a JSON string body. -/
def parseStringTok : List Char → StrTok
  | [] => .fail "unexpected end of JSON input"
  | c :: rest =>
    if c = '"' then .done rest
    else if c = '\\' then parseEscapeTok rest
    else .chr c rest

theorem parseUTok_length {l rest' : List Char} {c : Char}
    (h : parseUTok l = .chr c rest') : rest'.length < l.length := by
  unfold parseUTok at h
  split at h
  · rename_i h1 h2 h3 h4 rest3
    split at h
    · split_ifs at h <;> cases h <;> simp <;> omega
    · cases h
  · cases h

theorem parseEscapeTok_length {l rest' : List Char} {c : Char}
    (h : parseEscapeTok l = .chr c rest') : rest'.length < l.length := by
  unfold parseEscapeTok at h
  split at h
  · cases h
  · rename_i e rest2
    split_ifs at h with hu
    · have := parseUTok_length h
      simp only [List.length_cons]
      omega
    · split at h
      · cases h; simp
      · cases h

theorem parseStringTok_length {l rest' : List Char} {c : Char}
    (h : parseStringTok l = .chr c rest') : rest'.length < l.length := by
  unfold parseStringTok at h
  split at h
  · cases h
  · split_ifs at h with h1 h2
    · have := parseEscapeTok_length h
      simp only [List.length_cons]
      omega
    · cases h
      simp

/-- Fuelled driver for the JSON string body parser.  Every character
consumes at least one input element, so the input length plus one is always
enough fuel. -/
def parseStringAux : Nat → List Char → Except String (List Char × List Char)
  | 0, _ => .error "unexpected end of JSON input"
  | fuel + 1, l =>
    match parseStringTok l with
    | .done rest => .ok ([], rest)
    | .chr c rest' =>
        match parseStringAux fuel rest' with
        | .ok (cs, r) => .ok (c :: cs, r)
        | .error e => .error e
    | .fail e => .error e

/-- Parse the body of a JSON string after the opening quote; returns the
decoded characters and the input after the closing quote. -/
def parseStringBody (l : List Char) : Except String (List Char × List Char) :=
  parseStringAux (l.length + 1) l

theorem parseStringAux_fuel :
    ∀ (f1 f2 : Nat) (l : List Char), l.length < f1 → l.length < f2 →
      parseStringAux f1 l = parseStringAux f2 l := by
  intro f1
  induction f1 with
  | zero => intro f2 l h1 _; omega
  | succ f ih =>
      intro f2 l h1 h2
      cases f2 with
      | zero => omega
      | succ f2' =>
          simp only [parseStringAux]
          cases htok : parseStringTok l with
          | done rest => rfl
          | chr c rest' =>
              have := parseStringTok_length htok
              simp only [ih f2' rest' (by omega) (by omega)]
          | fail e => rfl

/-- One-step unfolding of the fuelled string parser. -/
theorem parseStringAux_succ (f : Nat) (l : List Char) :
    parseStringAux (f + 1) l =
      match parseStringTok l with
      | .done rest => .ok ([], rest)
      | .chr c rest' =>
          match parseStringAux f rest' with
          | .ok (cs, r) => .ok (c :: cs, r)
          | .error e => .error e
      | .fail e => .error e := rfl

/-- Unfolding the string parser one token at a time. -/
theorem parseStringBody_chr {l rest' : List Char} {c : Char}
    (htok : parseStringTok l = .chr c rest') :
    parseStringBody l =
      match parseStringBody rest' with
      | .ok (cs, r) => .ok (c :: cs, r)
      | .error e => .error e := by
  have hlen := parseStringTok_length htok
  show parseStringAux (l.length + 1) l =
    match parseStringBody rest' with
    | .ok (cs, r) => .ok (c :: cs, r)
    | .error e => .error e
  simp only [parseStringAux_succ, htok]
  rw [parseStringAux_fuel l.length (rest'.length + 1) rest' (by omega) (by omega)]
  rfl

theorem parseStringBody_done {l rest : List Char} (htok : parseStringTok l = .done rest) :
    parseStringBody l = .ok ([], rest) := by
  show parseStringAux (l.length + 1) l = .ok ([], rest)
  simp only [parseStringAux_succ, htok]

/-- Fold decimal digit characters into a natural number. -/
def digitsToNat (ds : List Char) : Nat :=
  ds.foldl (fun acc d => acc * 10 + (d.toNat - 48)) 0

/-- Is `c` an ASCII digit? -/
def isDigitChar (c : Char) : Bool := 48 ≤ c.toNat ∧ c.toNat ≤ 57

/-- Parse an unsigned JSON integer: digits, with fraction/exponent forms
rejected (as `json.Unmarshal` into an `int64` field does; a leading-zero
check is omitted: the marshaller never writes one and no claim exercises
one). -/
def parseJsonNatPart (l : List Char) : Except String (Nat × List Char) :=
  let ds := l.takeWhile isDigitChar
  let rest := l.dropWhile isDigitChar
  if ds.isEmpty then .error "invalid number literal"
  else
    match rest with
    | c :: _ =>
        if c = '.' ∨ c = 'e' ∨ c = 'E' then
          .error "cannot unmarshal number into field of type int64"
        else .ok (digitsToNat ds, rest)
    | [] => .ok (digitsToNat ds, rest)

/-- Parse a JSON integer with optional minus sign. -/
def parseJsonInt (l : List Char) : Except String (Int × List Char) :=
  if l.head? = some '-' then
    match parseJsonNatPart l.tail with
    | .ok (n, r) => .ok (-(n : Int), r)
    | .error e => .error e
  else
    match parseJsonNatPart l with
    | .ok (n, r) => .ok ((n : Int), r)
    | .error e => .error e

/-- Characters that may appear in a JSON number token (used only when
skipping an unknown field's value). -/
def isNumTokenChar (c : Char) : Bool :=
  isDigitChar c || c = '-' || c = '+' || c = '.' || c = 'e' || c = 'E'

mutual

/-- Skip one JSON value (used for unknown object keys, which
`json.Unmarshal` ignores).  `fuel` bounds nesting; callers pass the input
length, which every nesting level strictly exceeds. -/
def skipJsonValue : Nat → List Char → Except String (List Char)
  | 0, _ => .error "exceeded max depth"
  | fuel + 1, l =>
    match skipWs l with
    | '"' :: rest =>
        match parseStringBody rest with
        | .ok (_, r) => .ok r
        | .error e => .error e
    | '{' :: rest => skipJsonMembers fuel rest true
    | '[' :: rest => skipJsonElements fuel rest true
    | 't' :: 'r' :: 'u' :: 'e' :: rest => .ok rest
    | 'f' :: 'a' :: 'l' :: 's' :: 'e' :: rest => .ok rest
    | 'n' :: 'u' :: 'l' :: 'l' :: rest => .ok rest
    | l' =>
        if (l'.takeWhile isNumTokenChar).isEmpty then .error "invalid character"
        else .ok (l'.dropWhile isNumTokenChar)

/-- Skip the members of an object being ignored, after its `{`. -/
def skipJsonMembers : Nat → List Char → Bool → Except String (List Char)
  | 0, _, _ => .error "exceeded max depth"
  | fuel + 1, l, first =>
    match skipWs l with
    | '}' :: rest => if first then .ok rest else .error "invalid character"
    | '"' :: rest =>
        match parseStringBody rest with
        | .ok (_, r1) =>
            match skipWs r1 with
            | ':' :: r2 =>
                match skipJsonValue fuel r2 with
                | .ok r3 =>
                    match skipWs r3 with
                    | ',' :: r4 => skipJsonMembers fuel r4 false
                    | '}' :: r4 => .ok r4
                    | _ => .error "invalid character"
                | .error e => .error e
            | _ => .error "invalid character"
        | .error e => .error e
    | _ => .error "invalid character"

/-- Skip the elements of an array being ignored, after its `[`. -/
def skipJsonElements : Nat → List Char → Bool → Except String (List Char)
  | 0, _, _ => .error "exceeded max depth"
  | fuel + 1, l, first =>
    match skipWs l with
    | ']' :: rest => if first then .ok rest else .error "invalid character"
    | _ =>
        match skipJsonValue fuel l with
        | .ok r1 =>
            match skipWs r1 with
            | ',' :: r2 => skipJsonElements fuel r2 false
            | ']' :: r2 => .ok r2
            | _ => .error "invalid character"
        | .error e => .error e

end

/-- Unmarshal one recognised field value.  Keys are matched
case-insensitively, as `encoding/json` does; `null` leaves the field
untouched; unknown keys have their value skipped. -/
def parseCursorField (key : String) (fuel : Nat) (l : List Char) (acc : runCursorPayload) :
    Except String (runCursorPayload × List Char) :=
  if goToLower key = "jobpath" then
    match l with
    | c :: rest =>
        if c = '"' then
          match parseStringBody rest with
          | .ok (cs, r) => .ok ({ acc with JobPath := String.mk cs }, r)
          | .error e => .error e
        else if "null".data.isPrefixOf l then .ok (acc, l.drop 4)
        else .error "cannot unmarshal value into field jobPath of type string"
    | [] => .error "cannot unmarshal value into field jobPath of type string"
  else if goToLower key = "number" then
    if "null".data.isPrefixOf l then .ok (acc, l.drop 4)
    else
      match parseJsonInt l with
      | .ok (n, r) => .ok ({ acc with Number := n }, r)
      | .error e => .error e
  else
    match skipJsonValue fuel l with
    | .ok r => .ok (acc, r)
    | .error e => .error e

/-- Parse the members of the top-level object into a `runCursorPayload`,
starting just after `{` (or after a `,`). -/
def parseCursorMembers : Nat → List Char → runCursorPayload →
    Except String (runCursorPayload × List Char)
  | 0, _, _ => .error "exceeded max depth"
  | fuel + 1, l, acc =>
    match skipWs l with
    | c :: rest =>
        if c = '"' then
          match parseStringBody rest with
          | .ok (key, r1) =>
              match skipWs r1 with
              | c2 :: r2 =>
                  if c2 = ':' then
                    match parseCursorField (String.mk key) fuel (skipWs r2) acc with
                    | .ok (acc2, r3) =>
                        match skipWs r3 with
                        | c3 :: r4 =>
                            if c3 = ',' then parseCursorMembers fuel r4 acc2
                            else if c3 = '}' then .ok (acc2, r4)
                            else .error "invalid character after object member"
                        | [] => .error "invalid character after object member"
                    | .error e => .error e
                  else .error "invalid character after object key"
              | [] => .error "invalid character after object key"
          | .error e => .error e
        else .error "invalid character looking for object key"
    | [] => .error "invalid character looking for object key"

/-- One-step unfolding of the member loop. -/
theorem parseCursorMembers_succ (fuel : Nat) (l : List Char) (acc : runCursorPayload) :
    parseCursorMembers (fuel + 1) l acc =
      match skipWs l with
      | c :: rest =>
          if c = '"' then
            match parseStringBody rest with
            | .ok (key, r1) =>
                match skipWs r1 with
                | c2 :: r2 =>
                    if c2 = ':' then
                      match parseCursorField (String.mk key) fuel (skipWs r2) acc with
                      | .ok (acc2, r3) =>
                          match skipWs r3 with
                          | c3 :: r4 =>
                              if c3 = ',' then parseCursorMembers fuel r4 acc2
                              else if c3 = '}' then .ok (acc2, r4)
                              else .error "invalid character after object member"
                          | [] => .error "invalid character after object member"
                      | .error e => .error e
                    else .error "invalid character after object key"
                | [] => .error "invalid character after object key"
            | .error e => .error e
          else .error "invalid character looking for object key"
      | [] => .error "invalid character looking for object key" := rfl

/-- `json.Unmarshal(bytes, &runCursorPayload{})`: the input must be a single
object (plus surrounding whitespace); missing fields keep their zero
values. -/
def parseCursorPayload (input : List Char) : Except String runCursorPayload :=
  match skipWs input with
  | c :: rest =>
      if c = '{' then
        match skipWs rest with
        | c2 :: r =>
            if c2 = '}' then
              if (skipWs r).isEmpty then .ok ⟨"", 0⟩
              else .error "invalid character after top-level value"
            else
              match parseCursorMembers (input.length + 1) rest ⟨"", 0⟩ with
              | .ok (p, r2) =>
                  if (skipWs r2).isEmpty then .ok p
                  else .error "invalid character after top-level value"
              | .error e => .error e
        | [] =>
            match parseCursorMembers (input.length + 1) rest ⟨"", 0⟩ with
            | .ok (p, r2) =>
                if (skipWs r2).isEmpty then .ok p
                else .error "invalid character after top-level value"
            | .error e => .error e
      else .error "json: cannot unmarshal value into Go value of type runCursorPayload"
  | [] => .error "json: cannot unmarshal value into Go value of type runCursorPayload"

/-- `encodeRunCursor` (run/format.go): URL-safe raw base64 of the JSON
payload.  (`json.Marshal` cannot fail on this struct, so the source's
error branch returning `""` is dead.) -/
def encodeRunCursor (jobPath : String) (number : Int) : String :=
  String.mk (b64Encode (utf8Encode (jsonEncodePayload ⟨jobPath, number⟩)))

/-- `decodeRunCursor` (run/format.go): the empty cursor decodes to the zero
payload; otherwise base64-decode and unmarshal. -/
def decodeRunCursor (cursor : String) : Except String runCursorPayload :=
  if cursor = "" then .ok ⟨"", 0⟩
  else
    match b64Decode cursor.data with
    | .error e => .error ("decode cursor: " ++ e)
    | .ok bytes =>
        match utf8Decode bytes with
        | .error e => .error ("decode cursor: " ++ e)
        | .ok chars =>
            match parseCursorPayload chars with
            | .ok p => .ok p
            | .error e => .error ("decode cursor: " ++ e)

/-- `normalizeJobPath` (run/format.go). -/
def normalizeJobPath (jobPath : String) : String :=
  goTrimChar (goTrimSpace jobPath) '/'

/-! ### Round-trip lemmas for the cursor encoding -/

theorem skipWs_cons {c : Char} {l : List Char} (h : isJsonWs c = false) :
    skipWs (c :: l) = c :: l := by
  simp [skipWs, List.dropWhile_cons, h]

theorem toNat_ofNat_digit : ∀ v : Fin 10, (Char.ofNat (48 + v.val)).toNat = 48 + v.val := by
  decide

theorem hexVal_hexDigit : ∀ v : Fin 16, hexVal (hexDigit v.val) = some v.val := by decide

theorem natToDecimal_ne_nil (n : Nat) : natToDecimal n ≠ [] := by
  unfold natToDecimal
  split_ifs <;> simp

theorem natToDecimal_all_digits :
    ∀ n : Nat, ∀ d ∈ natToDecimal n, isDigitChar d = true := by
  intro n
  induction n using Nat.strong_induction_on with
  | _ n ih =>
      intro d hd
      unfold natToDecimal at hd
      split_ifs at hd with h
      · simp only [List.mem_singleton] at hd
        subst hd
        have := toNat_ofNat_digit ⟨n, h⟩
        simp only [isDigitChar, this]
        simp
        omega
      · simp only [List.mem_append, List.mem_singleton] at hd
        rcases hd with hd | hd
        · exact ih (n / 10) (by omega) d hd
        · subst hd
          have hm : n % 10 < 10 := by omega
          have := toNat_ofNat_digit ⟨n % 10, hm⟩
          simp only [isDigitChar, this]
          simp
          omega

theorem digitsToNat_go :
    ∀ n acc : Nat,
      List.foldl (fun acc d => acc * 10 + (d.toNat - 48)) acc (natToDecimal n) =
        acc * 10 ^ (natToDecimal n).length + n := by
  intro n
  induction n using Nat.strong_induction_on with
  | _ n ih =>
      intro acc
      unfold natToDecimal
      split_ifs with h
      · have := toNat_ofNat_digit ⟨n, h⟩
        simp [this]
      · have hlt : n / 10 < n := by omega
        have hm : n % 10 < 10 := by omega
        have hd := toNat_ofNat_digit ⟨n % 10, hm⟩
        rw [List.foldl_append, ih (n / 10) hlt acc]
        simp only [List.foldl_cons, List.foldl_nil, List.length_append, List.length_singleton,
          hd]
        rw [pow_succ]
        have : 48 + n % 10 - 48 = n % 10 := by omega
        rw [this]
        ring_nf
        omega

theorem digitsToNat_natToDecimal (n : Nat) : digitsToNat (natToDecimal n) = n := by
  unfold digitsToNat
  rw [digitsToNat_go n 0]
  simp

theorem takeWhile_all_append {p : Char → Bool} :
    ∀ ds rest : List Char, (∀ d ∈ ds, p d = true) →
      (∀ r rs, rest = r :: rs → p r = false) →
      (ds ++ rest).takeWhile p = ds ∧ (ds ++ rest).dropWhile p = rest := by
  intro ds
  induction ds with
  | nil =>
      intro rest _ hrest
      cases rest with
      | nil => simp
      | cons r rs => simp [List.takeWhile_cons, List.dropWhile_cons, hrest r rs rfl]
  | cons d tl ih =>
      intro rest hds hrest
      have hd : p d = true := hds d (by simp)
      have := ih rest (fun x hx => hds x (by simp [hx])) hrest
      simp [List.takeWhile_cons, List.dropWhile_cons, hd, this.1, this.2]

theorem digit_not_minus {c : Char} (h : isDigitChar c = true) : ¬(c = '-') := by
  intro hc
  subst hc
  simp [isDigitChar] at h

theorem digit_not_stop {c : Char} (h : isDigitChar c = true) :
    ¬(c = '.' ∨ c = 'e' ∨ c = 'E') := by
  intro hc
  rcases hc with hc | hc | hc <;> subst hc <;> simp [isDigitChar] at h

/-- Parsing inverts decimal rendering when the next character is not a
digit, `.`, `e`, or `E`. -/
theorem parseJsonNatPart_natToDecimal (n : Nat) {c : Char} (hstop : isDigitChar c = false)
    (hstop2 : ¬(c = '.' ∨ c = 'e' ∨ c = 'E')) (rest : List Char) :
    parseJsonNatPart (natToDecimal n ++ c :: rest) = .ok (n, c :: rest) := by
  have htw := takeWhile_all_append (p := isDigitChar) (natToDecimal n) (c :: rest)
    (natToDecimal_all_digits n) (by intro r rs h; cases h; exact hstop)
  unfold parseJsonNatPart
  simp only [htw.1, htw.2]
  rw [if_neg (by simp [natToDecimal_ne_nil n])]
  rw [if_neg hstop2]
  rw [digitsToNat_natToDecimal]

theorem parseJsonInt_intToDecimal (n : Int) {c : Char} (hstop : isDigitChar c = false)
    (hstop2 : ¬(c = '.' ∨ c = 'e' ∨ c = 'E')) (rest : List Char) :
    parseJsonInt (intToDecimal n ++ c :: rest) = .ok (n, c :: rest) := by
  by_cases hneg : n < 0
  · rw [show intToDecimal n = '-' :: natToDecimal n.natAbs from by
      unfold intToDecimal; rw [if_pos hneg]]
    unfold parseJsonInt
    simp only [List.cons_append, List.head?_cons, List.tail_cons]
    rw [if_pos trivial, parseJsonNatPart_natToDecimal n.natAbs hstop hstop2 rest]
    have h : -(n.natAbs : Int) = n := by omega
    simp only [h]
  · rw [show intToDecimal n = natToDecimal n.natAbs from by
      unfold intToDecimal; rw [if_neg hneg]]
    unfold parseJsonInt
    cases hdec : natToDecimal n.natAbs with
    | nil => exact absurd hdec (natToDecimal_ne_nil _)
    | cons d ds =>
        have hd : isDigitChar d = true := natToDecimal_all_digits n.natAbs d (by rw [hdec]; simp)
        simp only [List.cons_append, List.head?_cons]
        rw [if_neg (by simp only [Option.some.injEq]; exact digit_not_minus hd)]
        rw [← List.cons_append, ← hdec, parseJsonNatPart_natToDecimal n.natAbs hstop hstop2 rest]
        have h : ((n.natAbs : Nat) : Int) = n := by omega
        simp [h]

/-- The marshaller's escape of one character reads back as that
character. -/
theorem parseStringTok_escapeChar (c : Char) (k : List Char) :
    parseStringTok (jsonEscapeChar c ++ k) = .chr c k := by
  have hval := char_toNat_lt c
  have hsur : c.toNat < 55296 ∨ 57343 < c.toNat := by
    rcases c.valid with h | h
    · exact Or.inl h
    · exact Or.inr h.1
  unfold jsonEscapeChar
  split_ifs with h1 h2 h3 h4 h5 h6 h7
  · subst h1; simp [parseStringTok, parseEscapeTok, jsonEscMap]
  · subst h2; simp [parseStringTok, parseEscapeTok, jsonEscMap]
  · subst h3; simp [parseStringTok, parseEscapeTok, jsonEscMap]
  · subst h4; simp [parseStringTok, parseEscapeTok, jsonEscMap]
  · subst h5; simp [parseStringTok, parseEscapeTok, jsonEscMap]
  · -- \u00xy escapes for control characters and <, >, &
    have hlt : c.toNat < 256 := by
      rcases h6 with h | h | h | h
      · omega
      · subst h; decide
      · subst h; decide
      · subst h; decide
    have hhi : c.toNat / 16 < 16 := by omega
    have hlo : c.toNat % 16 < 16 := by omega
    have e1 := hexVal_hexDigit ⟨c.toNat / 16, hhi⟩
    have e2 := hexVal_hexDigit ⟨c.toNat % 16, hlo⟩
    simp only [List.cons_append, List.nil_append, parseStringTok, parseEscapeTok, parseUTok]
    rw [show hexVal '0' = some 0 from by decide]
    rw [e1, e2]
    simp only []
    rw [if_neg (by decide), if_pos trivial, if_pos trivial]
    have harith : ((0 * 16 + 0) * 16 + c.toNat / 16) * 16 + c.toNat % 16 = c.toNat := by omega
    rw [harith, if_neg (by omega), Char.ofNat_toNat]
  · -- \u2028 and \u2029
    have hlo : c.toNat % 16 < 16 := by omega
    have e2 := hexVal_hexDigit ⟨c.toNat % 16, hlo⟩
    simp only [List.cons_append, List.nil_append, parseStringTok, parseEscapeTok, parseUTok]
    rw [show hexVal '2' = some 2 from by decide, show hexVal '0' = some 0 from by decide]
    rw [e2]
    simp only []
    rw [if_neg (by decide), if_pos trivial, if_pos trivial]
    have harith : ((2 * 16 + 0) * 16 + 2) * 16 + c.toNat % 16 = c.toNat := by
      rcases h7 with h | h <;> omega
    rw [harith, if_neg (by omega), Char.ofNat_toNat]
  · -- plain character
    simp only [List.cons_append, List.nil_append, parseStringTok]
    rw [if_neg h1, if_neg h2]

theorem parseStringBody_escapeChar (c : Char) (k : List Char) :
    parseStringBody (jsonEscapeChar c ++ k) =
      match parseStringBody k with
      | .ok (cs, r) => .ok (c :: cs, r)
      | .error e => .error e :=
  parseStringBody_chr (parseStringTok_escapeChar c k)

theorem parseStringBody_quote (rest : List Char) :
    parseStringBody ('"' :: rest) = .ok ([], rest) :=
  parseStringBody_done (by simp only [parseStringTok]; rw [if_pos trivial])

theorem parseStringBody_escapeList (cs : List Char) (rest : List Char) :
    parseStringBody ((cs.map jsonEscapeChar).flatten ++ '"' :: rest) = .ok (cs, rest) := by
  induction cs with
  | nil => simp [parseStringBody_quote]
  | cons c tl ih =>
      simp only [List.map_cons, List.flatten_cons, List.append_assoc]
      rw [parseStringBody_escapeChar, ih]

/-- Parsing a string whose characters need no escaping (used for the literal
object keys the marshaller writes). -/
theorem parseStringBody_plain (cs : List Char) (h : ∀ c ∈ cs, c ≠ '"' ∧ c ≠ '\\')
    (rest : List Char) : parseStringBody (cs ++ '"' :: rest) = .ok (cs, rest) := by
  induction cs with
  | nil => simp [parseStringBody_quote]
  | cons c tl ih =>
      obtain ⟨hc1, hc2⟩ := h c (by simp)
      have htok : parseStringTok (c :: (tl ++ '"' :: rest)) = .chr c (tl ++ '"' :: rest) := by
        simp only [parseStringTok]
        rw [if_neg hc1, if_neg hc2]
      simp only [List.cons_append]
      rw [parseStringBody_chr htok, ih (fun x hx => h x (by simp [hx]))]

theorem digit_not_ws {c : Char} (h : isDigitChar c = true) : isJsonWs c = false := by
  simp only [isDigitChar, decide_eq_true_eq] at h
  simp only [isJsonWs, decide_eq_false_iff_not]
  rintro (rfl | rfl | rfl | rfl) <;> simp at h

/-- The decimal rendering of an integer starts with `-` or a digit, so
`skipWs` leaves it alone. -/
theorem skipWs_intToDecimal (n : Int) (t : List Char) :
    skipWs (intToDecimal n ++ t) = intToDecimal n ++ t := by
  unfold intToDecimal
  split_ifs with hneg
  · simp only [List.cons_append]
    exact skipWs_cons (by decide)
  · cases hdec : natToDecimal n.natAbs with
    | nil => exact absurd hdec (natToDecimal_ne_nil _)
    | cons d ds =>
        have hd : isDigitChar d = true := natToDecimal_all_digits n.natAbs d (by rw [hdec]; simp)
        simp only [List.cons_append]
        exact skipWs_cons (digit_not_ws hd)

theorem null_not_prefixOf_intToDecimal (n : Int) (t : List Char) :
    "null".data.isPrefixOf (intToDecimal n ++ t) = false := by
  unfold intToDecimal
  split_ifs with hneg
  · simp [List.isPrefixOf]
  · cases hdec : natToDecimal n.natAbs with
    | nil => exact absurd hdec (natToDecimal_ne_nil _)
    | cons d ds =>
        have hd : isDigitChar d = true := natToDecimal_all_digits n.natAbs d (by rw [hdec]; simp)
        simp only [isDigitChar, decide_eq_true_eq] at hd
        simp only [List.cons_append, show ("null".data : List Char) = 'n' :: 'u' :: 'l' :: 'l' :: []
          from rfl, List.isPrefixOf]
        have hne : (d == 'n') = false := by
          simp only [beq_eq_false_iff_ne]
          intro he
          subst he
          exact absurd hd.2 (by decide)
        simp [hne]
        intro he
        subst he
        exact absurd hd.2 (by decide)

/-- Processing the `"number":<n>}` member suffix of a marshalled payload. -/
theorem parseCursorMembers_number_tail (f : Nat) (acc : runCursorPayload) (n : Int) :
    parseCursorMembers (f + 1)
      ('"' :: 'n' :: 'u' :: 'm' :: 'b' :: 'e' :: 'r' :: '"' :: ':' :: (intToDecimal n ++ ['}']))
      acc = .ok ({ acc with Number := n }, []) := by
  have hkey : parseStringBody
      ('n' :: 'u' :: 'm' :: 'b' :: 'e' :: 'r' :: '"' :: (':' :: (intToDecimal n ++ ['}']))) =
        .ok ("number".data, ':' :: (intToDecimal n ++ ['}'])) :=
    parseStringBody_plain "number".data (by decide) _
  have hmk : String.mk "number".data = "number" := rfl
  have hk1 : ¬(goToLower "number" = "jobpath") := by decide
  have hk2 : goToLower "number" = "number" := by decide
  have hint := parseJsonInt_intToDecimal n (c := '}') (by decide) (by decide) []
  have hnull : ¬(("null".data : List Char) <+: intToDecimal n ++ ['}']) := by
    rw [← List.isPrefixOf_iff_prefix, null_not_prefixOf_intToDecimal]
    simp
  have hws1 : ∀ l : List Char, skipWs ('"' :: l) = '"' :: l := fun l => skipWs_cons (by decide)
  have hws2 : ∀ l : List Char, skipWs (':' :: l) = ':' :: l := fun l => skipWs_cons (by decide)
  have hws3 : ∀ l : List Char, skipWs ('}' :: l) = '}' :: l := fun l => skipWs_cons (by decide)
  simp [parseCursorMembers_succ, parseCursorField, hkey, hmk, hk1, hk2, hint, hws1, hws2,
    hws3, skipWs_intToDecimal, hnull]

/-- Unmarshalling inverts marshalling for the cursor payload. -/
theorem parseCursorPayload_jsonEncodePayload (p : runCursorPayload) :
    parseCursorPayload (jsonEncodePayload p) = .ok p := by
  obtain ⟨s, n⟩ := p
  have hws0 : skipWs [] = [] := rfl
  have hws1 : ∀ l : List Char, skipWs ('"' :: l) = '"' :: l := fun l => skipWs_cons (by decide)
  have hws2 : ∀ l : List Char, skipWs (':' :: l) = ':' :: l := fun l => skipWs_cons (by decide)
  have hws4 : ∀ l : List Char, skipWs ('{' :: l) = '{' :: l := fun l => skipWs_cons (by decide)
  have hws5 : ∀ l : List Char, skipWs (',' :: l) = ',' :: l := fun l => skipWs_cons (by decide)
  by_cases hs : s = ""
  · subst hs
    rw [show jsonEncodePayload ⟨"", n⟩ =
        '{' :: '"' :: 'n' :: 'u' :: 'm' :: 'b' :: 'e' :: 'r' :: '"' :: ':' ::
          (intToDecimal n ++ ['}']) from by
      unfold jsonEncodePayload
      rw [if_pos rfl]
      simp]
    have htail := parseCursorMembers_number_tail
      (('{' :: '"' :: 'n' :: 'u' :: 'm' :: 'b' :: 'e' :: 'r' :: '"' :: ':' ::
        (intToDecimal n ++ ['}'])).length) ⟨"", 0⟩ n
    simp [parseCursorPayload, hws0, hws1, hws4] at htail ⊢
    rw [htail]
    simp [hws0]
  · rw [show jsonEncodePayload ⟨s, n⟩ =
        '{' :: '"' :: 'j' :: 'o' :: 'b' :: 'P' :: 'a' :: 't' :: 'h' :: '"' :: ':' :: '"' ::
          ((s.data.map jsonEscapeChar).flatten ++ '"' :: ',' ::
            '"' :: 'n' :: 'u' :: 'm' :: 'b' :: 'e' :: 'r' :: '"' :: ':' ::
              (intToDecimal n ++ ['}'])) from by
      unfold jsonEncodePayload
      rw [if_neg hs]
      simp [jsonQuote]]
    have hkeyJ : parseStringBody
        ('j' :: 'o' :: 'b' :: 'P' :: 'a' :: 't' :: 'h' :: '"' :: (':' :: '"' ::
          ((s.data.map jsonEscapeChar).flatten ++ '"' :: ',' ::
            '"' :: 'n' :: 'u' :: 'm' :: 'b' :: 'e' :: 'r' :: '"' :: ':' ::
              (intToDecimal n ++ ['}'])))) =
        .ok ("jobPath".data, ':' :: '"' ::
          ((s.data.map jsonEscapeChar).flatten ++ '"' :: ',' ::
            '"' :: 'n' :: 'u' :: 'm' :: 'b' :: 'e' :: 'r' :: '"' :: ':' ::
              (intToDecimal n ++ ['}']))) :=
      parseStringBody_plain "jobPath".data (by decide) _
    have hvalS : parseStringBody
        ((s.data.map jsonEscapeChar).flatten ++ '"' :: ',' ::
          '"' :: 'n' :: 'u' :: 'm' :: 'b' :: 'e' :: 'r' :: '"' :: ':' ::
            (intToDecimal n ++ ['}'])) =
        .ok (s.data, ',' ::
          '"' :: 'n' :: 'u' :: 'm' :: 'b' :: 'e' :: 'r' :: '"' :: ':' ::
            (intToDecimal n ++ ['}'])) :=
      parseStringBody_escapeList s.data _
    have hmkJ : String.mk "jobPath".data = "jobPath" := rfl
    have hmkS : String.mk s.data = s := rfl
    have hj1 : goToLower "jobPath" = "jobpath" := by decide
    have hkeyN : parseStringBody
        ('n' :: 'u' :: 'm' :: 'b' :: 'e' :: 'r' :: '"' :: (':' :: (intToDecimal n ++ ['}']))) =
          .ok ("number".data, ':' :: (intToDecimal n ++ ['}'])) :=
      parseStringBody_plain "number".data (by decide) _
    have hmkN : String.mk "number".data = "number" := rfl
    have hk1 : ¬(goToLower "number" = "jobpath") := by decide
    have hk2 : goToLower "number" = "number" := by decide
    have hint := parseJsonInt_intToDecimal n (c := '}') (by decide) (by decide) []
    have hnull : ¬(("null".data : List Char) <+: intToDecimal n ++ ['}']) := by
      rw [← List.isPrefixOf_iff_prefix, null_not_prefixOf_intToDecimal]
      simp
    have hws3 : ∀ l : List Char, skipWs ('}' :: l) = '}' :: l := fun l => skipWs_cons (by decide)
    simp [parseCursorPayload, parseCursorMembers_succ, parseCursorField, hkeyJ, hvalS, hmkJ,
      hmkS, hj1, hkeyN, hmkN, hk1, hk2, hint, hnull, skipWs_intToDecimal,
      hws0, hws1, hws2, hws3, hws4, hws5]

theorem jsonEncodePayload_ne_nil (p : runCursorPayload) : jsonEncodePayload p ≠ [] := by
  unfold jsonEncodePayload
  split_ifs <;> simp

theorem utf8EncodeChar_ne_nil (c : Char) : utf8EncodeChar c ≠ [] := by
  unfold utf8EncodeChar utf8EncodeNat
  split_ifs <;> simp

theorem utf8Encode_ne_nil {cs : List Char} (h : cs ≠ []) : utf8Encode cs ≠ [] := by
  cases cs with
  | nil => exact absurd rfl h
  | cons c tl =>
      simp only [utf8Encode, List.map_cons, List.flatten_cons, ne_eq, List.append_eq_nil]
      intro hcon
      exact utf8EncodeChar_ne_nil c hcon.1

theorem b64Encode_ne_nil {bs : List Nat} (h : bs ≠ []) : b64Encode bs ≠ [] := by
  match bs with
  | [] => exact absurd rfl h
  | [a] => simp [b64Encode]
  | [a, b] => simp [b64Encode]
  | a :: b :: c :: rest => simp [b64Encode]

/-- The cursor round-trip, in helper form shared by later developments. -/
theorem decode_encode_roundtrip (path : String) (n : Int) :
    decodeRunCursor (encodeRunCursor path n) = .ok ⟨path, n⟩ := by
  have hnil : b64Encode (utf8Encode (jsonEncodePayload ⟨path, n⟩)) ≠ [] :=
    b64Encode_ne_nil (utf8Encode_ne_nil (jsonEncodePayload_ne_nil ⟨path, n⟩))
  unfold decodeRunCursor encodeRunCursor
  rw [if_neg (by
    intro h
    exact hnil (congrArg String.data h))]
  simp only [show (String.mk (b64Encode (utf8Encode (jsonEncodePayload ⟨path, n⟩)))).data =
      b64Encode (utf8Encode (jsonEncodePayload ⟨path, n⟩)) from rfl]
  rw [b64Decode_b64Encode _ (utf8Encode_lt_256 _)]
  simp only [utf8Decode_utf8Encode, parseCursorPayload_jsonEncodePayload]

/-- C4: the cursor round-trip.  For every job path and every number,
decoding the cursor produced by `encodeRunCursor` (URL-safe base64 of the
JSON payload) returns exactly that payload:
`decodeRunCursor (encodeRunCursor path n) = ok { jobPath := path, number := n }`. -/
theorem c4_decodeRunCursor_encodeRunCursor (path : String) (n : Int) :
    decodeRunCursor (encodeRunCursor path n) = .ok ⟨path, n⟩ :=
  decode_encode_roundtrip path n

/-! ## Run query pipeline (run ls)

Jenkins `actions` payloads are schema-less JSON; they are modelled by
`GoVal`.  JSON numbers are modelled as integers (`fmt.Sprint` of a float
never matters to a claim).  Go maps are association lists whose `set`
overwrites in place; Go's random map iteration order is determinised to
insertion order. -/

/-- A dynamic Go value decoded from JSON (`any` / `map[string]any`). -/
inductive GoVal where
  | str (s : String)
  | num (n : Int)
  | bool (b : Bool)
  | null
  | arr (xs : List GoVal)
  | obj (fields : List (String × GoVal))
deriving Repr, BEq

/-- A `map[string]any`. -/
abbrev GoObj := List (String × GoVal)

/-- Map indexing `m[k]` (a missing key is Go's `nil`). -/
def objGet (o : GoObj) (k : String) : Option GoVal := o.lookup k

/-- Type assertion `.(string)` with its `ok` flag collapsed to the zero
value, as in `name, _ := m[k].(string)`. -/
def goStr (v : Option GoVal) : String :=
  match v with
  | some (.str s) => s
  | _ => ""

/-- `fmt.Sprint` on a dynamic value (recursive form; only the cases the
claims exercise are rendered faithfully — aggregates get Go's bracketed
rendering). -/
def sprintDeep : GoVal → String
  | .str s => s
  | .num n => String.mk (intToDecimal n)
  | .bool true => "true"
  | .bool false => "false"
  | .null => "<nil>"
  | .arr xs => "[" ++ String.intercalate " " (xs.attach.map fun x => sprintDeep x.1) ++ "]"
  | .obj fields => "map[" ++ String.intercalate " " (fields.attach.map fun p => p.1.1 ++ ":" ++ sprintDeep p.1.2) ++ "]"
decreasing_by
  · have h := List.sizeOf_lt_of_mem x.2
    simp only [GoVal.arr.sizeOf_spec]
    omega
  · have h := List.sizeOf_lt_of_mem p.2
    have h2 : sizeOf p.1.2 < sizeOf p.1 := by
      obtain ⟨⟨a, b⟩, hp⟩ := p
      simp only [Prod.mk.sizeOf_spec]
      omega
    simp only [GoVal.obj.sizeOf_spec]
    omega

/-- `fmt.Sprint`: scalar cases are spelled out (so they also evaluate by
kernel reduction); aggregates delegate to the recursive form. -/
def sprintGoVal : GoVal → String
  | .str s => s
  | .num n => String.mk (intToDecimal n)
  | .bool true => "true"
  | .bool false => "false"
  | .null => "<nil>"
  | .arr xs => sprintDeep (.arr xs)
  | .obj fields => sprintDeep (.obj fields)

/-- `fmt.Sprint(m[k])`: a missing key prints as `<nil>`. -/
def sprintAny (v : Option GoVal) : String :=
  match v with
  | some g => sprintGoVal g
  | none => "<nil>"

/-- A Go map as an association list; `m[k] = v` overwrites in place. -/
def assocSet {α : Type} (m : List (String × α)) (k : String) (v : α) :
    List (String × α) :=
  if (m.lookup k).isSome then m.map (fun p => if p.1 = k then (k, v) else p)
  else m ++ [(k, v)]

/-- A string-valued Go map write. -/
def mapSet (m : List (String × String)) (k v : String) : List (String × String) :=
  assocSet m k v

/-- `changeSet.items[]` entries. -/
structure changeSetItem where
  AuthorEmail : String
  CommitID : String
  Msg : String
  AuthorFullName : String
deriving Repr, BEq

/-- Artifact entries of a build. -/
structure artifactItem where
  FileName : String
  RelativePath : String
  Size : Int
deriving Repr, BEq

/-- `runSummary` (run command): the tree-shaped build payload. -/
structure runSummary where
  Number : Int
  Result : String
  Building : Bool
  Timestamp : Int
  Duration : Int
  EstimatedDuration : Int
  URL : String
  QueueID : Int
  Actions : List GoObj
  ChangeSetItems : List changeSetItem
  Artifacts : List artifactItem
deriving Repr, BEq

/-- Typed attribute-context values (`internal/filter`). -/
inductive FValue where
  | str (s : String)
  | int (n : Int)
  | bool (b : Bool)
  | instant (ms : Int)
  | dur (ns : Int)
  | seq (xs : List String)
deriving Repr, BEq, DecidableEq

/-- The per-run attribute context (`filter.Context`). -/
abbrev FContext := List (String × FValue)

def ctxLookup (ctx : FContext) (k : String) : Option FValue := ctx.lookup k

/-- Context write `ctx[k] = v` with overwrite semantics. -/
def ctxSet (ctx : FContext) (k : String) (v : FValue) : FContext :=
  assocSet ctx k v

/-- One extracted cause (run command, list path). -/
structure runCauseInfo where
  «Type» : String
  UserID : String
  UserName : String
deriving Repr, BEq, DecidableEq

/-- `statusFromFlags` (run/format.go). -/
def statusFromFlags (building : Bool) : String :=
  if building then "running" else "completed"

/-- One `parameters[]` entry of `extractParametersFromSummary`: skip blank
names, otherwise write the trimmed name with `fmt.Sprint` of the value. -/
def paramEntryStep (params : List (String × String)) (entry : GoVal) :
    List (String × String) :=
  match entry with
  | .obj paramMap =>
      if goTrimSpace (goStr (objGet paramMap "name")) = "" then params
      else
        mapSet params (goTrimSpace (goStr (objGet paramMap "name")))
          (sprintAny (objGet paramMap "value"))
  | _ => params

/-- One action of `extractParametersFromSummary`: walk its `parameters`
array when present. -/
def paramActionStep (params : List (String × String)) (action : GoObj) :
    List (String × String) :=
  match objGet action "parameters" with
  | some (.arr raw) => raw.foldl paramEntryStep params
  | _ => params

/-- `extractParametersFromSummary` (run command): walk
`actions[].parameters[]` into a name→value map; the map write overwrites, so
the last occurrence of a name wins. -/
def extractParametersFromSummary (summary : runSummary) : List (String × String) :=
  summary.Actions.foldl paramActionStep []

/-- `extractCausesFromSummary` (run command): the cause `Type` is the raw
`_class` string when present and non-empty, else the `shortDescription`
string. -/
def extractCausesFromSummary (summary : runSummary) : List runCauseInfo :=
  summary.Actions.foldl (fun causes action =>
    match objGet action "causes" with
    | some (.arr raw) =>
        raw.foldl (fun causes entry =>
          match entry with
          | .obj causeMap =>
              let type0 :=
                match objGet causeMap "_class" with
                | some (.str className) =>
                    if className ≠ "" then className
                    else goStr (objGet causeMap "shortDescription")
                | _ => goStr (objGet causeMap "shortDescription")
              causes ++ [⟨type0, goStr (objGet causeMap "userId"),
                goStr (objGet causeMap "userName")⟩]
          | _ => causes) causes
    | _ => causes) []

/-- `classifyCause` (run/format.go, used by the run-view extraction
`extractCauses`). -/
def classifyCause (className description : String) : String :=
  let cn := goToLower className
  if goContains cn "useridcause" then "user"
  else if goContains cn "scmtrigger" then "scm"
  else if goContains cn "timertrigger" then "timer"
  else if goContains cn "upstream" then "upstream"
  else
    let d := goToLower description
    if goContains d "user" then "user"
    else if goContains d "scm" then "scm"
    else if goContains d "timer" then "timer"
    else if goContains d "upstream" then "upstream"
    else "other"

/-- SCM info extracted from actions and the change set. -/
structure runSCMInfo where
  Branch : String
  Commit : String
  Repo : String
  Author : String
deriving Repr, BEq

/-- `extractSCMInfo` (run/format.go): first non-empty value wins per
field. -/
def extractSCMInfo (actions : List GoObj) (change : List changeSetItem) : Option runSCMInfo :=
  let info : runSCMInfo :=
    actions.foldl (fun info action =>
      let info :=
        match objGet action "lastBuiltRevision" with
        | some (.obj lastBuilt) =>
            let info :=
              match objGet lastBuilt "SHA1" with
              | some (.str sha) => if info.Commit = "" then { info with Commit := sha } else info
              | _ => info
            match objGet lastBuilt "branch" with
            | some (.arr branches) =>
                branches.foldl (fun info branchAny =>
                  match branchAny with
                  | .obj bMap =>
                      match objGet bMap "name" with
                      | some (.str name) =>
                          if info.Branch = "" then { info with Branch := name } else info
                      | _ => info
                  | _ => info) info
            | _ => info
        | _ => info
      let info :=
        match objGet action "buildsByBranchName" with
        | some (.obj branchMap) =>
            branchMap.foldl (fun info nameRaw =>
              let info := if info.Branch = "" then { info with Branch := nameRaw.1 } else info
              match nameRaw.2 with
              | .obj entry =>
                  match objGet entry "revision" with
                  | some (.str rev) =>
                      if info.Commit = "" then { info with Commit := rev } else info
                  | _ => info
              | _ => info) info
        | _ => info
      let info :=
        match objGet action "remoteUrls" with
        | some (.arr remotes) =>
            remotes.foldl (fun info remote =>
              match remote with
              | .str s => if info.Repo = "" then { info with Repo := s } else info
              | _ => info) info
        | _ => info
      match objGet action "remoteUrl" with
      | some (.str remote) => if info.Repo = "" then { info with Repo := remote } else info
      | _ => info) ⟨"", "", "", ""⟩
  let info := change.foldl (fun info item =>
    let info :=
      if info.Commit = "" ∧ item.CommitID ≠ "" then { info with Commit := item.CommitID }
      else info
    if info.Author = "" then
      if item.AuthorEmail ≠ "" then { info with Author := item.AuthorEmail }
      else if item.AuthorFullName ≠ "" then { info with Author := item.AuthorFullName }
      else info
    else info) info
  if info.Branch = "" ∧ info.Commit = "" ∧ info.Repo = "" ∧ info.Author = "" then none
  else some info

/-- The per-run inspection (`runInspection`). -/
structure runInspection where
  Summary : runSummary
  Context : FContext
  Parameters : List (String × String)
  Causes : List runCauseInfo
  Artifacts : List artifactItem
deriving Repr, BEq

/-- The initial `filter.Context` literal of `inspectRun`, including the
`result`-defaults-to-`status` fixup that follows it. -/
def baseRunContext (summary : runSummary) : FContext :=
  let result0 := goToUpper (goTrimSpace summary.Result)
  let status := statusFromFlags summary.Building
  [("result", .str (if result0 = "" then status else result0)),
   ("status", .str status),
   ("queue.id", .int summary.QueueID),
   ("building", .bool summary.Building),
   ("started", .instant summary.Timestamp),
   ("duration", .dur (summary.Duration * 1000000)),
   ("estimatedDuration", .dur (summary.EstimatedDuration * 1000000))]

/-- `param.<NAME>` context population of `inspectRun`. -/
def paramsCtx (ctx : FContext) (needParams : Bool)
    (parameters : List (String × String)) : FContext :=
  if needParams then
    parameters.foldl (fun ctx nv => ctxSet ctx ("param." ++ nv.1) (.str nv.2)) ctx
  else ctx

/-- `causeUsers` of `inspectRun`: user name, else user id, else skipped. -/
def causeUsersOf (causes : List runCauseInfo) : List String :=
  causes.foldl (fun acc cause =>
    if cause.UserName ≠ "" then acc ++ [cause.UserName]
    else if cause.UserID ≠ "" then acc ++ [cause.UserID]
    else acc) []

/-- `causeTypes` of `inspectRun`: non-empty cause types in order. -/
def causeTypesOf (causes : List runCauseInfo) : List String :=
  causes.foldl (fun acc cause =>
    if cause.«Type» ≠ "" then acc ++ [cause.«Type»] else acc) []

/-- `cause.user` / `cause.type` context population of `inspectRun`. -/
def causesCtx (ctx : FContext) (needCauses : Bool) (causes : List runCauseInfo) :
    FContext :=
  if needCauses then
    let ctx :=
      if causeUsersOf causes ≠ [] then ctxSet ctx "cause.user" (.seq (causeUsersOf causes))
      else ctx
    if causeTypesOf causes ≠ [] then ctxSet ctx "cause.type" (.seq (causeTypesOf causes))
    else ctx
  else ctx

def artifactNamesOf (artifacts : List artifactItem) : List String :=
  artifacts.foldl (fun acc a => if a.FileName ≠ "" then acc ++ [a.FileName] else acc) []

def artifactPathsOf (artifacts : List artifactItem) : List String :=
  artifacts.foldl (fun acc a => if a.RelativePath ≠ "" then acc ++ [a.RelativePath] else acc) []

/-- `artifact.name` / `artifact.path` context population of `inspectRun`. -/
def artifactsCtx (ctx : FContext) (needArtifacts : Bool)
    (artifacts : List artifactItem) : FContext :=
  if needArtifacts then
    let ctx :=
      if artifactNamesOf artifacts ≠ [] then
        ctxSet ctx "artifact.name" (.seq (artifactNamesOf artifacts))
      else ctx
    if artifactPathsOf artifacts ≠ [] then
      ctxSet ctx "artifact.path" (.seq (artifactPathsOf artifacts))
    else ctx
  else ctx

/-- `branch` / `commit` context population of `inspectRun`. -/
def scmCtx (ctx : FContext) (scm : Option runSCMInfo) : FContext :=
  match scm with
  | some info =>
      let ctx := if info.Branch ≠ "" then ctxSet ctx "branch" (.str info.Branch) else ctx
      if info.Commit ≠ "" then ctxSet ctx "commit" (.str info.Commit) else ctx
  | none => ctx

/-- `inspectRun` (run command): build the attribute context.  The source's
`nil` check on the result is dead code (the function always returns a
value). -/
def inspectRun (summary : runSummary) (needParams needCauses needArtifacts : Bool) :
    runInspection :=
  let parameters := if needParams then extractParametersFromSummary summary else []
  let causes := if needCauses then extractCausesFromSummary summary else []
  let ctx := baseRunContext summary
  let ctx := paramsCtx ctx needParams parameters
  let ctx := causesCtx ctx needCauses causes
  let ctx := artifactsCtx ctx needArtifacts summary.Artifacts
  let ctx := scmCtx ctx (extractSCMInfo summary.Actions summary.ChangeSetItems)
  ⟨summary, ctx, parameters, causes, summary.Artifacts⟩

/-- `runListOptions` (the fields `processRunList` reads; the filter set is
abstracted by a predicate on the attribute context plus a non-emptiness
flag, and `Since` is already its Unix-millisecond value). -/
structure runListOptions where
  Limit : Int
  Cursor : String
  Since : Option Int
  hasFilters : Bool
  evalFilters : FContext → Bool

/-- The parts of `processRunList`'s output the claims are about (the
group/metadata accumulators are ignored side channels). -/
structure runListResult where
  matched : List runInspection
  moreMatches : Bool
  nextCursor : String

/-- `sort.Slice(sorted, func(i, j) { return sorted[i].Number > sorted[j].Number })`:
descending by build number.  The Go sort is unstable; this insertion sort is
one admissible ordering. -/
def insertByNumberDesc (x : runSummary) : List runSummary → List runSummary
  | [] => [x]
  | y :: ys => if x.Number > y.Number then x :: y :: ys else y :: insertByNumberDesc x ys

def sortByNumberDesc (l : List runSummary) : List runSummary :=
  l.foldr insertByNumberDesc []

/-- The `for _, summary := range sorted` loop of `processRunList`:
cursor-cutoff skip, since-break, filter skip, limit/overflow. -/
def runListLoop (opts : runListOptions) (cutoff sinceMs : Int)
    (needParams needCauses needArtifacts : Bool) :
    List runSummary → List runInspection → Bool → List runInspection × Bool
  | [], matched, more => (matched, more)
  | summary :: rest, matched, more =>
      if cutoff > 0 ∧ summary.Number ≥ cutoff then
        runListLoop opts cutoff sinceMs needParams needCauses needArtifacts rest matched more
      else if sinceMs > 0 ∧ summary.Timestamp < sinceMs then (matched, more)
      else
        let inspection := inspectRun summary needParams needCauses needArtifacts
        if opts.hasFilters ∧ ¬ opts.evalFilters inspection.Context then
          runListLoop opts cutoff sinceMs needParams needCauses needArtifacts rest matched more
        else if (matched.length : Int) < opts.Limit then
          runListLoop opts cutoff sinceMs needParams needCauses needArtifacts rest
            (matched ++ [inspection]) more
        else
          runListLoop opts cutoff sinceMs needParams needCauses needArtifacts rest matched true

/-- The `nextCursor` assembly at the end of `processRunList`. -/
def runListAssemble (normalized : String) (pair : List runInspection × Bool) :
    runListResult :=
  ⟨pair.1, pair.2,
   if pair.2 then
     match pair.1.getLast? with
     | some lastI => encodeRunCursor normalized lastI.Summary.Number
     | none => ""
   else ""⟩

/-- `sinceMs`: the Unix-millisecond bound, zero when `--since` is absent. -/
def sinceMsOf (opts : runListOptions) : Int :=
  match opts.Since with
  | some t => t
  | none => 0

/-- `processRunList` (run command).  The `%q` verbs of the mismatch error
are modelled as plain double quotes (no Go-syntax escaping inside). -/
def processRunList (jobPath : String) (opts : runListOptions) (builds : List runSummary)
    (needArtifacts needParams needCauses : Bool) : Except String runListResult :=
  let normalized := normalizeJobPath jobPath
  let sorted := sortByNumberDesc builds
  let sinceMs : Int := sinceMsOf opts
  if goTrimSpace opts.Cursor ≠ "" then
    match decodeRunCursor opts.Cursor with
    | .error e => .error e
    | .ok payload =>
        if payload.JobPath ≠ "" ∧ payload.JobPath ≠ normalized then
          .error ("cursor job path \"" ++ payload.JobPath ++ "\" does not match \"" ++
            normalized ++ "\"")
        else
          .ok (runListAssemble normalized
            (runListLoop opts payload.Number sinceMs needParams needCauses needArtifacts
              sorted [] false))
  else
    .ok (runListAssemble normalized
      (runListLoop opts 0 sinceMs needParams needCauses needArtifacts sorted [] false))

theorem inspectRun_summary (summary : runSummary) (nP nC nA : Bool) :
    (inspectRun summary nP nC nA).Summary = summary := rfl

/-- Every inspection matched by the loop under a positive cutoff has a build
number strictly below the cutoff. -/
theorem runListLoop_cutoff (opts : runListOptions) (cutoff sinceMs : Int)
    (nP nC nA : Bool) (hc : 0 < cutoff) :
    ∀ (summaries : List runSummary) (matched : List runInspection) (more : Bool),
      (∀ i ∈ matched, i.Summary.Number < cutoff) →
      ∀ i ∈ (runListLoop opts cutoff sinceMs nP nC nA summaries matched more).1,
        i.Summary.Number < cutoff := by
  intro summaries
  induction summaries with
  | nil =>
      intro matched more hm i hi
      simp only [runListLoop] at hi
      exact hm i hi
  | cons summary rest ih =>
      intro matched more hm i hi
      simp only [runListLoop] at hi
      by_cases h1 : 0 < cutoff ∧ cutoff ≤ summary.Number
      · rw [if_pos h1] at hi
        exact ih matched more hm i hi
      · rw [if_neg h1] at hi
        by_cases h2 : 0 < sinceMs ∧ summary.Timestamp < sinceMs
        · rw [if_pos h2] at hi
          exact hm i hi
        · rw [if_neg h2] at hi
          by_cases h3 : opts.hasFilters ∧ ¬ opts.evalFilters (inspectRun summary nP nC nA).Context
          · rw [if_pos h3] at hi
            exact ih matched more hm i hi
          · rw [if_neg h3] at hi
            by_cases h4 : (matched.length : Int) < opts.Limit
            · rw [if_pos h4] at hi
              refine ih _ more ?_ i hi
              intro j hj
              rcases List.mem_append.mp hj with hj | hj
              · exact hm j hj
              · have hje : j = inspectRun summary nP nC nA := by simpa using hj
                subst hje
                rw [inspectRun_summary]
                push_neg at h1
                exact h1 hc
            · rw [if_neg h4] at hi
              exact ih matched true hm i hi

/-- When the loop reports more matches and a last matched element, the
assembled cursor decodes back to the normalized path and that number. -/
theorem runListAssemble_cursor (normalized : String) (pair : List runInspection × Bool)
    (lastI : runInspection) (hm : pair.2 = true) (hl : pair.1.getLast? = some lastI) :
    decodeRunCursor (runListAssemble normalized pair).nextCursor =
      .ok ⟨normalized, lastI.Summary.Number⟩ := by
  simp only [runListAssemble, hm, if_pos trivial, hl]
  exact decode_encode_roundtrip normalized lastI.Summary.Number

/-- C3: the run-list pagination contract.  (a) Whenever the call succeeds
reporting more matches and a non-empty matched list, the returned cursor
decodes to the normalized input job path and the last matched run's number.
(b) When a supplied cursor decodes with a positive number, every matched
run's number is strictly below it.  (c) A supplied cursor whose embedded
job path is non-empty and differs from the normalized job path is rejected
with the cursor-mismatch error. -/
theorem c3_runList_pagination (jobPath : String) (opts : runListOptions)
    (builds : List runSummary) (nA nP nC : Bool) :
    (∀ res lastI, processRunList jobPath opts builds nA nP nC = .ok res →
       res.moreMatches = true → res.matched.getLast? = some lastI →
       decodeRunCursor res.nextCursor =
         .ok ⟨normalizeJobPath jobPath, lastI.Summary.Number⟩) ∧
    (∀ payload res, goTrimSpace opts.Cursor ≠ "" →
       decodeRunCursor opts.Cursor = .ok payload → 0 < payload.Number →
       processRunList jobPath opts builds nA nP nC = .ok res →
       ∀ i ∈ res.matched, i.Summary.Number < payload.Number) ∧
    (∀ payload, goTrimSpace opts.Cursor ≠ "" →
       decodeRunCursor opts.Cursor = .ok payload →
       payload.JobPath ≠ "" → payload.JobPath ≠ normalizeJobPath jobPath →
       processRunList jobPath opts builds nA nP nC =
         .error ("cursor job path \"" ++ payload.JobPath ++ "\" does not match \"" ++
           normalizeJobPath jobPath ++ "\"")) := by
  refine ⟨?_, ?_, ?_⟩
  · intro res lastI hres hm hl
    simp only [processRunList] at hres
    by_cases hcur : goTrimSpace opts.Cursor ≠ ""
    · rw [if_pos hcur] at hres
      cases hdec : decodeRunCursor opts.Cursor with
      | error e =>
          rw [hdec] at hres
          exact absurd hres (by simp)
      | ok payload =>
          rw [hdec] at hres
          simp only [] at hres
          by_cases hmis : payload.JobPath ≠ "" ∧ payload.JobPath ≠ normalizeJobPath jobPath
          · rw [if_pos hmis] at hres
            exact absurd hres (by simp)
          · rw [if_neg hmis] at hres
            cases hres
            exact runListAssemble_cursor _ _ lastI hm hl
    · rw [if_neg hcur] at hres
      cases hres
      exact runListAssemble_cursor _ _ lastI hm hl
  · intro payload res hcur hdec hpos hres
    simp only [processRunList] at hres
    rw [if_pos hcur, hdec] at hres
    simp only [] at hres
    by_cases hmis : payload.JobPath ≠ "" ∧ payload.JobPath ≠ normalizeJobPath jobPath
    · rw [if_pos hmis] at hres
      exact absurd hres (by simp)
    · rw [if_neg hmis] at hres
      cases hres
      intro i hi
      refine runListLoop_cutoff opts payload.Number _ nP nC nA hpos _ [] false ?_ i hi
      intro j hj
      exact absurd hj (List.not_mem_nil j)
  · intro payload hcur hdec hne hmis
    simp only [processRunList]
    rw [if_pos hcur, hdec]
    simp only []
    rw [if_pos ⟨hne, hmis⟩]

/-- Concrete options for exercising the pagination contract. -/
def runListOptsAt (c : String) : runListOptions :=
  ⟨1, c, none, false, fun _ => true⟩

/-- A minimal build summary with a given number and timestamp. -/
def summaryAt (n ts : Int) : runSummary :=
  ⟨n, "SUCCESS", false, ts, 0, 0, "", 0, [], [], []⟩

def sampleBuilds : List runSummary := [summaryAt 5 50, summaryAt 4 40, summaryAt 3 30]

theorem c3_runList_pagination_witness :
    (∃ res lastI,
       processRunList "team/app" (runListOptsAt "") sampleBuilds false false false = .ok res ∧
       res.moreMatches = true ∧ res.matched.getLast? = some lastI ∧
       decodeRunCursor res.nextCursor =
         .ok ⟨normalizeJobPath "team/app", lastI.Summary.Number⟩) ∧
    (∃ payload res,
       goTrimSpace "eyJudW1iZXIiOjR9" ≠ "" ∧
       decodeRunCursor "eyJudW1iZXIiOjR9" = .ok payload ∧ 0 < payload.Number ∧
       processRunList "team/app" (runListOptsAt "eyJudW1iZXIiOjR9") sampleBuilds false false false =
         .ok res ∧
       ∀ i ∈ res.matched, i.Summary.Number < payload.Number) ∧
    processRunList "team/app" (runListOptsAt "eyJqb2JQYXRoIjoib3RoZXIiLCJudW1iZXIiOjF9")
        sampleBuilds false false false =
      .error ("cursor job path \"other\" does not match \"team/app\"") := by
  refine ⟨⟨_, _, rfl, rfl, rfl, ?_⟩, ⟨⟨"", 4⟩, _, ?_, rfl, ?_, rfl, ?_⟩, ?_⟩
  · exact (c3_runList_pagination "team/app" (runListOptsAt "") sampleBuilds
      false false false).1 _ _ rfl rfl rfl
  · decide
  · decide
  · exact (c3_runList_pagination "team/app" (runListOptsAt "eyJudW1iZXIiOjR9") sampleBuilds
      false false false).2.1 ⟨"", 4⟩ _ (by decide) rfl (by decide) rfl
  · exact (c3_runList_pagination "team/app"
      (runListOptsAt "eyJqb2JQYXRoIjoib3RoZXIiLCJudW1iZXIiOjF9")
      sampleBuilds false false false).2.2 ⟨"other", 1⟩
      (by decide) (by rfl) (by decide) (by decide)

/-- C10: cursor-acceptance edge cases.  (i) Decoding the empty cursor string
yields the zero payload with no error.  (ii) A supplied cursor whose decoded
payload has an empty embedded job path is accepted against any job: the call
succeeds and returns exactly the loop result with the payload's number as
the only cutoff (the job-path binding check is skipped). -/
theorem c10_cursor_acceptance :
    decodeRunCursor "" = .ok ⟨"", 0⟩ ∧
    (∀ (jobPath : String) (opts : runListOptions) (builds : List runSummary)
       (nA nP nC : Bool) (payload : runCursorPayload),
       goTrimSpace opts.Cursor ≠ "" →
       decodeRunCursor opts.Cursor = .ok payload →
       payload.JobPath = "" →
       processRunList jobPath opts builds nA nP nC =
         .ok (runListAssemble (normalizeJobPath jobPath)
           (runListLoop opts payload.Number (sinceMsOf opts) nP nC nA
             (sortByNumberDesc builds) [] false))) := by
  refine ⟨rfl, ?_⟩
  intro jobPath opts builds nA nP nC payload hcur hdec hjp
  simp only [processRunList]
  rw [if_pos hcur, hdec]
  simp only []
  rw [if_neg (by
    intro hmis
    exact hmis.1 hjp)]

theorem c10_cursor_acceptance_witness :
    decodeRunCursor "" = .ok ⟨"", 0⟩ ∧
    (goTrimSpace "eyJudW1iZXIiOjR9" ≠ "" ∧
     decodeRunCursor "eyJudW1iZXIiOjR9" = .ok ⟨"", 4⟩ ∧
     processRunList "any/job" (runListOptsAt "eyJudW1iZXIiOjR9") sampleBuilds
         true true true =
       .ok (runListAssemble (normalizeJobPath "any/job")
         (runListLoop (runListOptsAt "eyJudW1iZXIiOjR9") 4
           (sinceMsOf (runListOptsAt "eyJudW1iZXIiOjR9")) true true true
           (sortByNumberDesc sampleBuilds) [] false))) :=
  ⟨c10_cursor_acceptance.1,
   by decide,
   by rfl,
   c10_cursor_acceptance.2 "any/job" (runListOptsAt "eyJudW1iZXIiOjR9") sampleBuilds
     true true true ⟨"", 4⟩ (by decide) (by rfl) rfl⟩

/-! ### Association-map lookup lemmas -/

theorem lookup_assocSet_self {α : Type} (k : String) (v : α) :
    ∀ m : List (String × α), (assocSet m k v).lookup k = some v := by
  have hrep : ∀ m : List (String × α), (m.lookup k).isSome →
      (m.map (fun p => if p.1 = k then (k, v) else p)).lookup k = some v := by
    intro m
    induction m with
    | nil => intro h; simp at h
    | cons p es ih =>
        intro h
        obtain ⟨a, b⟩ := p
        by_cases hp : a = k
        · simp only [List.map_cons]
          rw [if_pos hp]
          simp [List.lookup]
        · have hne : (k == a) = false := beq_eq_false_iff_ne.mpr (fun he => hp he.symm)
          simp only [List.lookup, hne] at h
          simp only [List.map_cons]
          rw [if_neg hp]
          simp only [List.lookup, hne]
          exact ih h
  have happ : ∀ m : List (String × α), m.lookup k = none →
      (m ++ [(k, v)]).lookup k = some v := by
    intro m
    induction m with
    | nil => simp [List.lookup]
    | cons p es ih =>
        intro h
        obtain ⟨a, b⟩ := p
        simp only [List.lookup, List.cons_append] at h ⊢
        cases hk : (k == a) with
        | true => rw [hk] at h; simp at h
        | false =>
            rw [hk] at h
            simp only [hk]
            exact ih h
  intro m
  unfold assocSet
  by_cases h : (m.lookup k).isSome
  · rw [if_pos h]; exact hrep m h
  · rw [if_neg h]
    exact happ m (Option.not_isSome_iff_eq_none.mp h)

theorem lookup_assocSet_ne {α : Type} {k' k : String} (hne : k' ≠ k) (v : α) :
    ∀ m : List (String × α), (assocSet m k v).lookup k' = m.lookup k' := by
  have hb : (k' == k) = false := beq_eq_false_iff_ne.mpr hne
  have hrep : ∀ m : List (String × α),
      (m.map (fun p => if p.1 = k then (k, v) else p)).lookup k' = m.lookup k' := by
    intro m
    induction m with
    | nil => rfl
    | cons p es ih =>
        obtain ⟨a, b⟩ := p
        by_cases hp : a = k
        · simp only [List.map_cons]
          rw [if_pos hp]
          have hba : (k' == a) = false := beq_eq_false_iff_ne.mpr (by rw [hp]; exact hne)
          simp only [List.lookup, hb, hba]
          exact ih
        · simp only [List.map_cons]
          rw [if_neg hp]
          simp only [List.lookup]
          cases k' == a
          · exact ih
          · rfl
  have happ : ∀ m : List (String × α), (m ++ [(k, v)]).lookup k' = m.lookup k' := by
    intro m
    induction m with
    | nil => simp [List.lookup, hb]
    | cons p es ih =>
        obtain ⟨a, b⟩ := p
        simp only [List.cons_append, List.lookup]
        cases k' == a
        · exact ih
        · rfl
  intro m
  unfold assocSet
  by_cases h : (m.lookup k).isSome
  · rw [if_pos h]; exact hrep m
  · rw [if_neg h]; exact happ m

theorem foldl_assocSet_lookup {α β : Type} (f : β → String) (g : β → α) (k : String) :
    ∀ (entries : List β) (m : List (String × α)),
      (entries.foldl (fun m e => assocSet m (f e) (g e)) m).lookup k =
        match (entries.filter (fun e => f e == k)).getLast? with
        | some e => some (g e)
        | none => m.lookup k := by
  intro entries
  induction entries with
  | nil => intro m; rfl
  | cons e es ih =>
      intro m
      simp only [List.foldl_cons]
      rw [ih]
      by_cases hf : (f e == k) = true
      · simp only [List.filter_cons, hf]
        rw [if_pos trivial]
        cases hfes : es.filter (fun e => f e == k) with
        | nil =>
            have hfe : f e = k := eq_of_beq hf
            rw [hfe]
            simp only [List.getLast?_nil, List.getLast?_singleton]
            exact lookup_assocSet_self k (g e) m
        | cons q qs =>
            simp only [List.getLast?_cons_cons]
            cases hl : (q :: qs).getLast? with
            | none =>
                rw [List.getLast?_eq_none_iff] at hl
                exact absurd hl (List.cons_ne_nil q qs)
            | some x => rfl
      · have hf' : (f e == k) = false := by simpa using hf
        simp only [List.filter_cons, hf']
        rw [if_neg (by simp)]
        cases hfes : es.filter (fun e => f e == k) with
        | nil =>
            simp only [List.getLast?_nil]
            have hfe : f e ≠ k := fun h => hf (beq_iff_eq.mpr h)
            exact lookup_assocSet_ne (fun h => hfe h.symm) (g e) m
        | cons q qs =>
            cases hl : (q :: qs).getLast? with
            | none =>
                rw [List.getLast?_eq_none_iff] at hl
                exact absurd hl (List.cons_ne_nil q qs)
            | some x => rfl

theorem param_key_ne (name k : String) (hk : k.data.head? ≠ some 'p') :
    "param." ++ name ≠ k := by
  intro h
  apply hk
  rw [← h]
  rfl

theorem append_left_inj (s : String) {a b : String} (h : s ++ a = s ++ b) : a = b := by
  have hd := congrArg String.data h
  simp only [String.data_append] at hd
  exact String.ext (List.append_cancel_left hd)

theorem append_beq_append (s a b : String) : (s ++ a == s ++ b) = (a == b) := by
  by_cases h : a = b
  · subst h; simp
  · have h1 : (a == b) = false := beq_eq_false_iff_ne.mpr h
    have h2 : (s ++ a == s ++ b) = false :=
      beq_eq_false_iff_ne.mpr (fun he => h (append_left_inj s he))
    rw [h1, h2]

theorem lookup_none_not_mem {α : Type} (k : String) :
    ∀ m : List (String × α), m.lookup k = none → k ∉ m.map Prod.fst := by
  intro m
  induction m with
  | nil => intro _ h; simp at h
  | cons p es ih =>
      intro h hmem
      obtain ⟨a, b⟩ := p
      simp only [List.lookup] at h
      cases hk : (k == a) with
      | true => rw [hk] at h; simp at h
      | false =>
          rw [hk] at h
          simp only [List.map_cons, List.mem_cons] at hmem
          rcases hmem with he | hmem
          · exact absurd (beq_iff_eq.mpr he) (by simp [hk])
          · exact ih h hmem

theorem assocSet_keys_nodup {α : Type} (k : String) (v : α) :
    ∀ m : List (String × α), (m.map Prod.fst).Nodup →
      ((assocSet m k v).map Prod.fst).Nodup := by
  intro m hm
  unfold assocSet
  by_cases h : (m.lookup k).isSome
  · rw [if_pos h]
    have : (m.map (fun p => if p.1 = k then (k, v) else p)).map Prod.fst = m.map Prod.fst := by
      rw [List.map_map]
      apply List.map_congr_left
      intro p _
      by_cases hp : p.1 = k
      · simp [hp]
      · simp [hp]
    rw [this]
    exact hm
  · rw [if_neg h]
    have hnm : k ∉ m.map Prod.fst :=
      lookup_none_not_mem k m (Option.not_isSome_iff_eq_none.mp h)
    simp only [List.map_append, List.map_cons, List.map_nil]
    rw [List.nodup_append]
    refine ⟨hm, List.nodup_singleton k, ?_⟩
    intro a ha hk2
    simp only [List.mem_singleton] at hk2
    subst hk2
    exact hnm ha

theorem foldl_assocSet_nodup {α β : Type} (f : β → String) (g : β → α) :
    ∀ (entries : List β) (m : List (String × α)), (m.map Prod.fst).Nodup →
      (((entries.foldl (fun m e => assocSet m (f e) (g e)) m)).map Prod.fst).Nodup := by
  intro entries
  induction entries with
  | nil => intro m hm; exact hm
  | cons e es ih =>
      intro m hm
      simp only [List.foldl_cons]
      exact ih _ (assocSet_keys_nodup (f e) (g e) m hm)

theorem lookup_eq_filter_getLast {α : Type} (k : String) :
    ∀ m : List (String × α), (m.map Prod.fst).Nodup →
      (match (m.filter (fun p => p.1 == k)).getLast? with
       | some p => some p.2
       | none => none) = m.lookup k := by
  intro m
  induction m with
  | nil => intro _; rfl
  | cons p es ih =>
      intro hm
      obtain ⟨a, b⟩ := p
      simp only [List.map_cons, List.nodup_cons] at hm
      obtain ⟨hna, hnd⟩ := hm
      by_cases ha : (a == k) = true
      · have hak : a = k := eq_of_beq ha
        have hkb : (k == a) = true := beq_iff_eq.mpr hak.symm
        have hfe : es.filter (fun p => p.1 == k) = [] := by
          rw [List.filter_eq_nil_iff]
          intro q hq hqk
          exact hna (by
            have : q.1 = k := eq_of_beq (by simpa using hqk)
            rw [hak]
            rw [← this]
            exact List.mem_map_of_mem Prod.fst hq)
        simp only [List.filter_cons, ha]
        rw [if_pos trivial]
        rw [hfe]
        simp only [List.getLast?_singleton, List.lookup, hkb]
      · have ha' : (a == k) = false := by simpa using ha
        have hka : (k == a) = false := by
          refine beq_eq_false_iff_ne.mpr (fun he => ?_)
          exact (beq_eq_false_iff_ne.mp ha') he.symm
        simp only [List.filter_cons, ha']
        rw [if_neg (by simp)]
        simp only [List.lookup, hka]
        exact ih hnd

/-- The trimmed `(name, value)` pairs a single `parameters` entry
contributes (spec-side characterization helper). -/
def entryPairs : GoVal → List (String × String)
  | .obj paramMap =>
      if goTrimSpace (goStr (objGet paramMap "name")) = "" then []
      else [(goTrimSpace (goStr (objGet paramMap "name")), sprintAny (objGet paramMap "value"))]
  | _ => []

/-- The pairs a whole action contributes. -/
def actionEntries (action : GoObj) : List (String × String) :=
  match objGet action "parameters" with
  | some (.arr raw) => (raw.map entryPairs).flatten
  | _ => []

/-- All `(name, value)` pairs the walk over `actions[].parameters[]`
encounters, in walk order, blank names skipped. -/
def paramEntries (summary : runSummary) : List (String × String) :=
  (summary.Actions.map actionEntries).flatten

theorem extract_inner_eq (raw : List GoVal) :
    ∀ m : List (String × String),
      raw.foldl paramEntryStep m =
        (raw.map entryPairs).flatten.foldl (fun m p => mapSet m p.1 p.2) m := by
  induction raw with
  | nil => intro m; rfl
  | cons entry rest ih =>
      intro m
      simp only [List.foldl_cons, List.map_cons, List.flatten_cons]
      cases entry with
      | obj paramMap =>
          by_cases hb : goTrimSpace (goStr (objGet paramMap "name")) = ""
          · rw [ih]
            simp only [paramEntryStep, entryPairs, if_pos hb, List.nil_append]
          · rw [ih]
            simp only [paramEntryStep, entryPairs, if_neg hb, List.cons_append,
              List.nil_append, List.foldl_cons]
      | str v => rw [ih]; simp only [paramEntryStep, entryPairs, List.nil_append]
      | num v => rw [ih]; simp only [paramEntryStep, entryPairs, List.nil_append]
      | bool v => rw [ih]; simp only [paramEntryStep, entryPairs, List.nil_append]
      | null => rw [ih]; simp only [paramEntryStep, entryPairs, List.nil_append]
      | arr v => rw [ih]; simp only [paramEntryStep, entryPairs, List.nil_append]

theorem foldl_mapSet_append (l1 l2 : List (String × String)) :
    ∀ m, (l1 ++ l2).foldl (fun m p => mapSet m p.1 p.2) m =
      l2.foldl (fun m p => mapSet m p.1 p.2) (l1.foldl (fun m p => mapSet m p.1 p.2) m) := by
  induction l1 with
  | nil => intro m; rfl
  | cons p rest ih => intro m; simp only [List.cons_append, List.foldl_cons, ih]

/-- The source's nested fold is the flat fold of `mapSet` over the
entries. -/
theorem extract_outer_eq (actions : List GoObj) :
    ∀ m : List (String × String),
      actions.foldl paramActionStep m =
        (actions.map actionEntries).flatten.foldl (fun m p => mapSet m p.1 p.2) m := by
  induction actions with
  | nil => intro m; rfl
  | cons action rest ih =>
      intro m
      simp only [List.foldl_cons, List.map_cons, List.flatten_cons, foldl_mapSet_append]
      cases hpar : objGet action "parameters" with
      | none =>
          simp only [paramActionStep, actionEntries, hpar, List.foldl_nil]
          exact ih m
      | some v =>
          cases v with
          | arr raw =>
              simp only [paramActionStep, actionEntries, hpar]
              rw [extract_inner_eq]
              exact ih _
          | str x =>
              simp only [paramActionStep, actionEntries, hpar, List.foldl_nil]
              exact ih m
          | num x =>
              simp only [paramActionStep, actionEntries, hpar, List.foldl_nil]
              exact ih m
          | bool x =>
              simp only [paramActionStep, actionEntries, hpar, List.foldl_nil]
              exact ih m
          | null =>
              simp only [paramActionStep, actionEntries, hpar, List.foldl_nil]
              exact ih m
          | obj x =>
              simp only [paramActionStep, actionEntries, hpar, List.foldl_nil]
              exact ih m

theorem extract_eq_foldl (summary : runSummary) :
    extractParametersFromSummary summary =
      (paramEntries summary).foldl (fun m p => mapSet m p.1 p.2) [] :=
  extract_outer_eq summary.Actions []

/-! ### Context lookup lemmas for the inspection stages -/

theorem lookup_params_fold (target : String) (htarget : target.data.head? ≠ some 'p')
    (ps : List (String × String)) (c : FContext) :
    (ps.foldl (fun ctx nv => ctxSet ctx ("param." ++ nv.1) (.str nv.2)) c).lookup target =
      c.lookup target := by
  have h := foldl_assocSet_lookup (fun (nv : String × String) => "param." ++ nv.1)
    (fun nv => FValue.str nv.2) target ps c
  have hnil : ps.filter (fun nv => ("param." ++ nv.1 : String) == target) = [] :=
    List.filter_eq_nil_iff.mpr (fun e _ => by
      simp [beq_eq_false_iff_ne.mpr (param_key_ne e.1 target htarget)])
  rw [hnil] at h
  exact h

theorem paramsCtx_lookup_ne (target : String) (htarget : target.data.head? ≠ some 'p')
    (ctx : FContext) (nP : Bool) (ps : List (String × String)) :
    (paramsCtx ctx nP ps).lookup target = ctx.lookup target := by
  cases nP with
  | false => rfl
  | true => exact lookup_params_fold target htarget ps ctx

theorem causesCtx_lookup_ne (target : String) (h1 : target ≠ "cause.user")
    (h2 : target ≠ "cause.type") (ctx : FContext) (nC : Bool)
    (causes : List runCauseInfo) :
    (causesCtx ctx nC causes).lookup target = ctx.lookup target := by
  have hcu : ∀ (c : FContext) (v : FValue),
      (ctxSet c "cause.user" v).lookup target = c.lookup target :=
    fun c v => lookup_assocSet_ne h1 v c
  have hct : ∀ (c : FContext) (v : FValue),
      (ctxSet c "cause.type" v).lookup target = c.lookup target :=
    fun c v => lookup_assocSet_ne h2 v c
  cases nC with
  | false => rfl
  | true =>
      simp only [causesCtx, apply_ite (fun (c : FContext) => c.lookup target),
        hcu, hct, ite_self]

theorem artifactsCtx_lookup_ne (target : String) (h1 : target ≠ "artifact.name")
    (h2 : target ≠ "artifact.path") (ctx : FContext) (nA : Bool)
    (artifacts : List artifactItem) :
    (artifactsCtx ctx nA artifacts).lookup target = ctx.lookup target := by
  have hn : ∀ (c : FContext) (v : FValue),
      (ctxSet c "artifact.name" v).lookup target = c.lookup target :=
    fun c v => lookup_assocSet_ne h1 v c
  have hp : ∀ (c : FContext) (v : FValue),
      (ctxSet c "artifact.path" v).lookup target = c.lookup target :=
    fun c v => lookup_assocSet_ne h2 v c
  cases nA with
  | false => rfl
  | true =>
      simp only [artifactsCtx, apply_ite (fun (c : FContext) => c.lookup target),
        hn, hp, ite_self]

theorem scmCtx_lookup_ne (target : String) (h1 : target ≠ "branch")
    (h2 : target ≠ "commit") (ctx : FContext) (scm : Option runSCMInfo) :
    (scmCtx ctx scm).lookup target = ctx.lookup target := by
  have hb : ∀ (c : FContext) (v : FValue),
      (ctxSet c "branch" v).lookup target = c.lookup target :=
    fun c v => lookup_assocSet_ne h1 v c
  have hc : ∀ (c : FContext) (v : FValue),
      (ctxSet c "commit" v).lookup target = c.lookup target :=
    fun c v => lookup_assocSet_ne h2 v c
  cases scm with
  | none => rfl
  | some info =>
      simp only [scmCtx, apply_ite (fun (c : FContext) => c.lookup target),
        hb, hc, ite_self]

theorem paramsCtx_lookup_param_some (ctx : FContext) (ps : List (String × String))
    (name : String) (nv : String × String)
    (hgl : (ps.filter (fun nv => nv.1 == name)).getLast? = some nv) :
    (paramsCtx ctx true ps).lookup ("param." ++ name) = some (.str nv.2) := by
  have h := foldl_assocSet_lookup (fun (nv : String × String) => "param." ++ nv.1)
    (fun nv => FValue.str nv.2) ("param." ++ name) ps ctx
  have hpred : (fun (nv : String × String) => ("param." ++ nv.1 : String) == ("param." ++ name)) =
      (fun nv => nv.1 == name) := by
    funext nv
    exact append_beq_append "param." nv.1 name
  rw [hpred, hgl] at h
  exact h

theorem paramsCtx_lookup_param_none (ctx : FContext) (ps : List (String × String))
    (name : String)
    (hgl : (ps.filter (fun nv => nv.1 == name)).getLast? = none) :
    (paramsCtx ctx true ps).lookup ("param." ++ name) = ctx.lookup ("param." ++ name) := by
  have h := foldl_assocSet_lookup (fun (nv : String × String) => "param." ++ nv.1)
    (fun nv => FValue.str nv.2) ("param." ++ name) ps ctx
  have hpred : (fun (nv : String × String) => ("param." ++ nv.1 : String) == ("param." ++ name)) =
      (fun nv => nv.1 == name) := by
    funext nv
    exact append_beq_append "param." nv.1 name
  rw [hpred, hgl] at h
  exact h

theorem causesCtx_lookup_ct (ctx : FContext) (causes : List runCauseInfo) :
    (causesCtx ctx true causes).lookup "cause.type" =
      if causeTypesOf causes ≠ [] then some (.seq (causeTypesOf causes))
      else ctx.lookup "cause.type" := by
  have hcu : ∀ (c : FContext) (v : FValue),
      (ctxSet c "cause.user" v).lookup "cause.type" = c.lookup "cause.type" :=
    fun c v => lookup_assocSet_ne (by decide) v c
  show (if causeTypesOf causes ≠ [] then
      ctxSet (if causeUsersOf causes ≠ [] then
          ctxSet ctx "cause.user" (.seq (causeUsersOf causes)) else ctx)
        "cause.type" (.seq (causeTypesOf causes))
    else if causeUsersOf causes ≠ [] then
      ctxSet ctx "cause.user" (.seq (causeUsersOf causes)) else ctx).lookup "cause.type" = _
  by_cases ht : causeTypesOf causes ≠ []
  · rw [if_pos ht, if_pos ht]
    exact lookup_assocSet_self "cause.type" _ _
  · rw [if_neg ht, if_neg ht]
    by_cases hu : causeUsersOf causes ≠ []
    · rw [if_pos hu]
      exact hcu ctx _
    · rw [if_neg hu]

theorem extract_keys_nodup (summary : runSummary) :
    ((extractParametersFromSummary summary).map Prod.fst).Nodup := by
  rw [extract_eq_foldl]
  exact foldl_assocSet_nodup Prod.fst Prod.snd (paramEntries summary) [] (by simp)

theorem baseRunContext_lookup_param (summary : runSummary) (name : String) :
    (baseRunContext summary).lookup ("param." ++ name) = none := by
  have h1 : (("param." ++ name : String) == "result") = false :=
    beq_eq_false_iff_ne.mpr (param_key_ne name "result" (by decide))
  have h2 : (("param." ++ name : String) == "status") = false :=
    beq_eq_false_iff_ne.mpr (param_key_ne name "status" (by decide))
  have h3 : (("param." ++ name : String) == "queue.id") = false :=
    beq_eq_false_iff_ne.mpr (param_key_ne name "queue.id" (by decide))
  have h4 : (("param." ++ name : String) == "building") = false :=
    beq_eq_false_iff_ne.mpr (param_key_ne name "building" (by decide))
  have h5 : (("param." ++ name : String) == "started") = false :=
    beq_eq_false_iff_ne.mpr (param_key_ne name "started" (by decide))
  have h6 : (("param." ++ name : String) == "duration") = false :=
    beq_eq_false_iff_ne.mpr (param_key_ne name "duration" (by decide))
  have h7 : (("param." ++ name : String) == "estimatedDuration") = false :=
    beq_eq_false_iff_ne.mpr (param_key_ne name "estimatedDuration" (by decide))
  simp only [baseRunContext, List.lookup, h1, h2, h3, h4, h5, h6, h7]

theorem baseRunContext_lookup_ct (summary : runSummary) :
    (baseRunContext summary).lookup "cause.type" = none := by
  simp only [baseRunContext, List.lookup,
    show (("cause.type" : String) == "result") = false from by decide,
    show (("cause.type" : String) == "status") = false from by decide,
    show (("cause.type" : String) == "queue.id") = false from by decide,
    show (("cause.type" : String) == "building") = false from by decide,
    show (("cause.type" : String) == "started") = false from by decide,
    show (("cause.type" : String) == "duration") = false from by decide,
    show (("cause.type" : String) == "estimatedDuration") = false from by decide]

/-! ### C7: parameter extraction -/

/-- The extraction as C7's spec sentence words it (spec-side definition for
comparison): the first occurrence of a parameter name wins — an entry is
inserted only when its name is absent. -/
def extractParametersFirstWins (summary : runSummary) : List (String × String) :=
  summary.Actions.foldl (fun params action =>
    match objGet action "parameters" with
    | some (.arr raw) =>
        raw.foldl (fun params entry =>
          match entry with
          | .obj paramMap =>
              if goTrimSpace (goStr (objGet paramMap "name")) = "" then params
              else if (params.lookup (goTrimSpace (goStr (objGet paramMap "name")))).isSome then
                params
              else
                params ++ [(goTrimSpace (goStr (objGet paramMap "name")),
                  sprintAny (objGet paramMap "value"))]
          | _ => params) params
    | _ => params) []

/-- Two actions both carrying a `CHART` parameter, with different values. -/
def paramClashSummary : runSummary :=
  ⟨7, "SUCCESS", false, 0, 0, 0, "", 0,
   [[("parameters", .arr [.obj [("name", .str "CHART"), ("value", .str "alpha")]])],
    [("parameters", .arr [.obj [("name", .str "CHART"), ("value", .str "beta")]])]],
   [], []⟩

/-- C7 counterexample: the code's extraction keeps the LAST occurrence of a
parameter name (`beta`), not the first (`alpha`) as the claim states; the
claimed first-wins extraction disagrees with the code's on this input. -/
theorem c7_params_first_wins_counterexample :
    (extractParametersFromSummary paramClashSummary).lookup "CHART" = some "beta" ∧
    (extractParametersFirstWins paramClashSummary).lookup "CHART" = some "alpha" ∧
    extractParametersFromSummary paramClashSummary ≠
      extractParametersFirstWins paramClashSummary :=
  ⟨by decide, by decide, by decide⟩

/-- C7 amended: the parameters map keeps the LAST occurrence per name —
looking up a name yields the value of the last walked entry with that name —
and the attribute context agrees with the map: `param.<NAME>` is present in
the context exactly when the map holds NAME, with the same (string) value. -/
theorem c7_params_last_wins_amended (summary : runSummary) (name : String)
    (nC nA : Bool) :
    (extractParametersFromSummary summary).lookup name =
      ((paramEntries summary).filter (fun p => p.1 == name)).getLast?.map Prod.snd ∧
    ctxLookup (inspectRun summary true nC nA).Context ("param." ++ name) =
      ((extractParametersFromSummary summary).lookup name).map FValue.str := by
  constructor
  · have h := foldl_assocSet_lookup Prod.fst Prod.snd name (paramEntries summary)
      ([] : List (String × String))
    rw [extract_eq_foldl]
    cases hgl : ((paramEntries summary).filter (fun p => p.1 == name)).getLast? with
    | some e =>
        rw [hgl] at h
        exact h
    | none =>
        rw [hgl] at h
        exact h
  · have hC : (inspectRun summary true nC nA).Context =
        scmCtx (artifactsCtx (causesCtx (paramsCtx (baseRunContext summary) true
          (extractParametersFromSummary summary)) nC
          (if nC then extractCausesFromSummary summary else []))
          nA summary.Artifacts)
          (extractSCMInfo summary.Actions summary.ChangeSetItems) := rfl
    simp only [ctxLookup, hC]
    rw [scmCtx_lookup_ne _ (param_key_ne name "branch" (by decide))
      (param_key_ne name "commit" (by decide))]
    rw [artifactsCtx_lookup_ne _ (param_key_ne name "artifact.name" (by decide))
      (param_key_ne name "artifact.path" (by decide))]
    rw [causesCtx_lookup_ne _ (param_key_ne name "cause.user" (by decide))
      (param_key_ne name "cause.type" (by decide))]
    have hlk := lookup_eq_filter_getLast name (extractParametersFromSummary summary)
      (extract_keys_nodup summary)
    cases hgl : ((extractParametersFromSummary summary).filter (fun p => p.1 == name)).getLast? with
    | some nv =>
        rw [paramsCtx_lookup_param_some _ _ _ _ hgl]
        rw [hgl] at hlk
        rw [← hlk]
        rfl
    | none =>
        rw [paramsCtx_lookup_param_none _ _ _ hgl, baseRunContext_lookup_param]
        rw [hgl] at hlk
        rw [← hlk]
        rfl

/-! ### C6: cause types in the context -/

/-- One action with a `UserIdCause` cause. -/
def causeClashSummary : runSummary :=
  ⟨9, "SUCCESS", false, 0, 0, 0, "", 0,
   [[("causes", .arr [.obj [("_class", .str "hudson.model.Cause$UserIdCause"),
      ("shortDescription", .str "Started by user jane"), ("userId", .str "jane")]])]],
   [], []⟩

/-- C6 counterexample: the run-list pipeline puts the RAW `_class` string
into `cause.type` — here `hudson.model.Cause$UserIdCause`, which is not one
of the five classification tokens — even though `classifyCause` (used only
by the run-view path) would classify this cause as `user`. -/
theorem c6_cause_type_counterexample :
    ctxLookup (inspectRun causeClashSummary false true false).Context "cause.type" =
      some (.seq ["hudson.model.Cause$UserIdCause"]) ∧
    "hudson.model.Cause$UserIdCause" ∉ (["user", "scm", "timer", "upstream", "other"] : List String) ∧
    classifyCause "hudson.model.Cause$UserIdCause" "Started by user jane" = "user" :=
  ⟨by decide, by decide, by decide⟩

/-- C6 amended: with causes requested, `cause.type` holds exactly the
non-empty raw cause types (the raw `_class` string, or the short description
when `_class` is missing or empty) in walk order; it is absent when every
cause type is empty.  No classification is applied on this path. -/
theorem c6_cause_type_amended (summary : runSummary) (nP nA : Bool) :
    (causeTypesOf (extractCausesFromSummary summary) ≠ [] →
      ctxLookup (inspectRun summary nP true nA).Context "cause.type" =
        some (.seq (causeTypesOf (extractCausesFromSummary summary)))) ∧
    (causeTypesOf (extractCausesFromSummary summary) = [] →
      ctxLookup (inspectRun summary nP true nA).Context "cause.type" = none) := by
  have hC : (inspectRun summary nP true nA).Context =
      scmCtx (artifactsCtx (causesCtx (paramsCtx (baseRunContext summary) nP
        (if nP then extractParametersFromSummary summary else [])) true
        (extractCausesFromSummary summary)) nA summary.Artifacts)
        (extractSCMInfo summary.Actions summary.ChangeSetItems) := rfl
  have hmain : ctxLookup (inspectRun summary nP true nA).Context "cause.type" =
      if causeTypesOf (extractCausesFromSummary summary) ≠ [] then
        some (.seq (causeTypesOf (extractCausesFromSummary summary)))
      else none := by
    simp only [ctxLookup, hC]
    rw [scmCtx_lookup_ne _ (by decide) (by decide),
      artifactsCtx_lookup_ne _ (by decide) (by decide),
      causesCtx_lookup_ct,
      paramsCtx_lookup_ne _ (by decide), baseRunContext_lookup_ct]
  constructor
  · intro ht
    rw [hmain, if_pos ht]
  · intro ht
    rw [hmain, if_neg (fun h => h ht)]

theorem c6_cause_type_amended_witness :
    causeTypesOf (extractCausesFromSummary causeClashSummary) ≠ [] ∧
    ctxLookup (inspectRun causeClashSummary false true false).Context "cause.type" =
      some (.seq ["hudson.model.Cause$UserIdCause"]) :=
  ⟨by decide,
   ((c6_cause_type_amended causeClashSummary false false).1 (by decide)).trans (by decide)⟩

/-! ## waitForBuildNumber (run trigger --follow)

Real time is abstracted: one poll happens per loop iteration, and `budget`
is the number of the first iteration at which `time.Now().After(deadline)`
is true (the deadline check passes for iterations `0..budget-1`).  A poll
either fails (`client.Do` error — this is also how the caller's context
cancellation surfaces), or yields the decoded `queueItemStatus`:
`cancelled`, `why`, and `executable` (`none` models a nil `Executable`). -/

inductive queuePollResult where
  | err (e : String)
  | item (cancelled : Bool) (why : String) (exec : Option Int)
deriving Repr, DecidableEq

/-- `status.Executable.Number`, with nil `Executable` as 0 (the guard
`Executable != nil && Number > 0` is equivalent to `Number' > 0` on this
reading, and the returned value is the same). -/
def execNumberOf : Option Int → Int
  | some n => n
  | none => 0

/-- The polling loop of `waitForBuildNumber`.  The fuel is
`budget + 1 - i`, so the zero-fuel fallback (which returns the same
timeout error the deadline check would) is unreachable. -/
def waitLoop (polls : Nat → queuePollResult) (budget : Nat) :
    Nat → Nat → Except String Int
  | 0, _ => .error "timed out waiting for run to start"
  | fuel + 1, i =>
      match polls i with
      | .err e => .error e
      | .item cancelled why exec =>
          if cancelled then
            if why ≠ "" then .error ("queue item cancelled: " ++ why)
            else .error "queue item cancelled"
          else if 0 < execNumberOf exec then .ok (execNumberOf exec)
          else if budget ≤ i then .error "timed out waiting for run to start"
          else waitLoop polls budget fuel (i + 1)

/-- `waitForBuildNumber` (run command), from the first poll. -/
def waitForBuildNumber (polls : Nat → queuePollResult) (budget : Nat) :
    Except String Int :=
  waitLoop polls budget (budget + 1) 0

/-- A poll that decides nothing: no error, not cancelled, no positive
executable number (the loop sleeps and retries). -/
def pollPending : queuePollResult → Bool
  | .err _ => false
  | .item cancelled _ exec => !cancelled && decide (execNumberOf exec ≤ 0)

/-- What the loop returns when iteration `i`'s poll is decisive. -/
def pollOutcome : queuePollResult → Except String Int
  | .err e => .error e
  | .item cancelled why exec =>
      if cancelled then
        if why ≠ "" then .error ("queue item cancelled: " ++ why)
        else .error "queue item cancelled"
      else .ok (execNumberOf exec)

theorem waitLoop_all_pending (polls : Nat → queuePollResult) (budget : Nat) :
    ∀ (fuel i : Nat), budget + 1 = fuel + i →
      (∀ t, i ≤ t → t ≤ budget → pollPending (polls t) = true) →
      waitLoop polls budget fuel i = .error "timed out waiting for run to start" := by
  intro fuel
  induction fuel with
  | zero => intro i _ _; rfl
  | succ fuel ih =>
      intro i hinv hp
      have hib : i ≤ budget := by omega
      have hpi := hp i le_rfl hib
      simp only [waitLoop]
      cases hpoll : polls i with
      | err e => rw [hpoll] at hpi; simp [pollPending] at hpi
      | item cancelled why exec =>
          rw [hpoll] at hpi
          cases cancelled with
          | true => simp [pollPending] at hpi
          | false =>
              have hexec : execNumberOf exec ≤ 0 := by
                simpa [pollPending] using hpi
              simp only []
              rw [if_neg (by simp)]
              rw [if_neg (show ¬ 0 < execNumberOf exec by omega)]
              by_cases hbi : budget ≤ i
              · rw [if_pos hbi]
              · rw [if_neg hbi]
                exact ih (i + 1) (by omega) (fun t ht1 ht2 => hp t (by omega) ht2)

theorem waitLoop_first_decisive (polls : Nat → queuePollResult) (budget : Nat) :
    ∀ (fuel i j : Nat), budget + 1 = fuel + i → i ≤ j → j ≤ budget →
      (∀ t, i ≤ t → t < j → pollPending (polls t) = true) →
      pollPending (polls j) = false →
      waitLoop polls budget fuel i = pollOutcome (polls j) := by
  intro fuel
  induction fuel with
  | zero => intro i j hinv hij hjb _ _; omega
  | succ fuel ih =>
      intro i j hinv hij hjb hp hj
      simp only [waitLoop]
      by_cases hieq : i = j
      · subst hieq
        cases hpoll : polls i with
        | err e => rfl
        | item cancelled why exec =>
            rw [hpoll] at hj
            cases cancelled with
            | true => rfl
            | false =>
                have hpos : 0 < execNumberOf exec := by
                  simp [pollPending] at hj
                  omega
                simp only []
                rw [if_neg (by simp)]
                rw [if_pos hpos]
                rfl
      · have hilt : i < j := by omega
        have hpi := hp i le_rfl hilt
        cases hpoll : polls i with
        | err e => rw [hpoll] at hpi; simp [pollPending] at hpi
        | item cancelled why exec =>
            rw [hpoll] at hpi
            cases cancelled with
            | true => simp [pollPending] at hpi
            | false =>
                have hexec : execNumberOf exec ≤ 0 := by
                  simpa [pollPending] using hpi
                simp only []
                rw [if_neg (by simp)]
                rw [if_neg (show ¬ 0 < execNumberOf exec by omega)]
                rw [if_neg (show ¬ budget ≤ i by omega)]
                exact ih (i + 1) j (by omega) (by omega) hjb
                  (fun t ht1 ht2 => hp t (by omega) ht2) hj

/-- C5: the queue-to-build polling contract.  One poll per iteration; the
deadline check passes for the first `budget` iterations.  (a) If every poll
up to the deadline is non-decisive, the call fails with the queue-timeout
error.  (b) The first decisive poll determines the result: a poll error
(this is how caller cancellation surfaces) is returned as-is; a cancelled
queue item yields the queue-item-cancelled error, with the `why` text when
present; a positive `executable.number` is returned as the build number. -/
theorem c5_waitForBuildNumber_contract (polls : Nat → queuePollResult) (budget : Nat) :
    ((∀ i, i ≤ budget → pollPending (polls i) = true) →
      waitForBuildNumber polls budget = .error "timed out waiting for run to start") ∧
    (∀ j, j ≤ budget → (∀ i, i < j → pollPending (polls i) = true) →
      pollPending (polls j) = false →
      waitForBuildNumber polls budget = pollOutcome (polls j)) := by
  constructor
  · intro hp
    exact waitLoop_all_pending polls budget (budget + 1) 0 (by omega)
      (fun t _ ht2 => hp t ht2)
  · intro j hjb hp hj
    exact waitLoop_first_decisive polls budget (budget + 1) 0 j (by omega)
      (Nat.zero_le j) hjb (fun t _ ht2 => hp t ht2) hj

def timeoutPolls : Nat → queuePollResult := fun _ => .item false "" none

def readyPolls : Nat → queuePollResult := fun i =>
  if i = 0 then .item false "" none else .item false "" (some 7)

def cancelPolls : Nat → queuePollResult := fun _ => .item true "queue is restarting" none

theorem c5_waitForBuildNumber_witness :
    waitForBuildNumber timeoutPolls 3 = .error "timed out waiting for run to start" ∧
    waitForBuildNumber readyPolls 3 = .ok 7 ∧
    waitForBuildNumber cancelPolls 3 =
      .error "queue item cancelled: queue is restarting" :=
  ⟨(c5_waitForBuildNumber_contract timeoutPolls 3).1 (fun i _ => rfl),
   ((c5_waitForBuildNumber_contract readyPolls 3).2 1 (by decide)
     (fun i hi => by
       have h0 : i = 0 := by omega
       subst h0
       rfl)
     (by decide)).trans (by rfl),
   ((c5_waitForBuildNumber_contract cancelPolls 3).2 0 (by decide)
     (fun i hi => absurd hi (by omega))
     (by decide)).trans (by rfl)⟩

/-! ## CollectLogSnapshot (shared/log_stream.go)

One loop iteration consumes one event.  `ctxDone` models the context
check firing before the request; `doErr` a transport error (the code
returns the context error instead when the context is live — both are an
error return); `rangeNotSatisfiable` a 416 (reset offset, continue);
`chunk` a successful response carrying the chunk length (content is
irrelevant to the claims), the optional parsed `X-Text-Size` header and
the `X-More-Data` flag.  The job-path encoding precondition is outside
the loop and not modelled. -/

inductive logPollEvent where
  | ctxDone (e : String)
  | doErr (e : String)
  | rangeNotSatisfiable
  | nilBody
  | readErr (e : String)
  | chunk (len : Nat) (textSize : Option Int) (more : Bool)
deriving Repr, DecidableEq

/-- The `for i := 0; i < 1000; i++` loop; `remaining` counts down from
1000, and the zero-fuel case is the post-loop `return true, nil`.  The
`truncated` variable is threaded exactly as in the source (it is never
assigned). -/
def snapshotLoop (events : Nat → logPollEvent) (maxBytes : Int) :
    Nat → Nat → Bool → Int → Bool × Option String
  | 0, _, _, _ => (true, none)
  | remaining + 1, i, truncated, total =>
      match events i with
      | .ctxDone e => (truncated, some e)
      | .doErr e => (truncated, some e)
      | .rangeNotSatisfiable =>
          snapshotLoop events maxBytes remaining (i + 1) truncated total
      | .nilBody => (truncated, some "log stream returned empty body")
      | .readErr e => (truncated, some ("read log chunk: " ++ e))
      | .chunk len _ more =>
          if more = false then (truncated, none)
          else if len = 0 then (true, none)
          else if maxBytes ≤ total + (len : Int) then (true, none)
          else snapshotLoop events maxBytes remaining (i + 1) truncated (total + (len : Int))

/-- `CollectLogSnapshot`: default the byte budget, then run at most 1000
iterations. -/
def CollectLogSnapshot (events : Nat → logPollEvent) (maxBytes : Int) :
    Bool × Option String :=
  snapshotLoop events (if maxBytes ≤ 0 then 512 * 1024 else maxBytes) 1000 0 false 0

theorem snapshotLoop_congr (e1 e2 : Nat → logPollEvent) (maxBytes : Int) :
    ∀ (r i : Nat) (truncated : Bool) (total : Int),
      (∀ t, i ≤ t → t < i + r → e1 t = e2 t) →
      snapshotLoop e1 maxBytes r i truncated total =
        snapshotLoop e2 maxBytes r i truncated total := by
  intro r
  induction r with
  | zero => intro i truncated total _; rfl
  | succ r ih =>
      intro i truncated total h
      have hi := h i le_rfl (by omega)
      simp only [snapshotLoop, hi]
      cases he : e2 i with
      | ctxDone e => rfl
      | doErr e => rfl
      | nilBody => rfl
      | readErr e => rfl
      | rangeNotSatisfiable =>
          exact ih (i + 1) truncated total (fun t ht1 ht2 => h t (by omega) (by omega))
      | chunk len ts more =>
          simp only []
          by_cases hm : more = false
          · rw [if_pos hm, if_pos hm]
          · rw [if_neg hm, if_neg hm]
            by_cases hl : len = 0
            · rw [if_pos hl, if_pos hl]
            · rw [if_neg hl, if_neg hl]
              by_cases hb : maxBytes ≤ total + (len : Int)
              · rw [if_pos hb, if_pos hb]
              · rw [if_neg hb, if_neg hb]
                exact ih (i + 1) truncated _ (fun t ht1 ht2 => h t (by omega) (by omega))

/-- C8: the snapshot-collection contract.  (a) The result depends only on
the first 1000 polling events: the loop terminates within the iteration
cap on every input.  (b) A byte budget ≤ 0 behaves as the 512 KiB
default.  (c) A successful chunk response decides an iteration per the
source's switch: X-More-Data false returns truncated=false (the threaded
`truncated`, never assigned); an empty chunk while more data is expected
returns truncated=true; reaching the byte budget returns truncated=true.
(d) When the 1000-iteration cap runs out, the call returns
truncated=true. -/
theorem c8_snapshot_contract :
    (∀ (e1 e2 : Nat → logPollEvent) (maxBytes : Int),
       (∀ i, i < 1000 → e1 i = e2 i) →
       CollectLogSnapshot e1 maxBytes = CollectLogSnapshot e2 maxBytes) ∧
    (∀ (events : Nat → logPollEvent) (maxBytes : Int), maxBytes ≤ 0 →
       CollectLogSnapshot events maxBytes = CollectLogSnapshot events (512 * 1024)) ∧
    (∀ (events : Nat → logPollEvent) (maxBytes : Int) (r i : Nat) (truncated : Bool)
       (total : Int) (len : Nat) (ts : Option Int) (more : Bool),
       events i = .chunk len ts more →
       (more = false →
          snapshotLoop events maxBytes (r + 1) i truncated total = (truncated, none)) ∧
       (more = true → len = 0 →
          snapshotLoop events maxBytes (r + 1) i truncated total = (true, none)) ∧
       (more = true → len ≠ 0 → maxBytes ≤ total + (len : Int) →
          snapshotLoop events maxBytes (r + 1) i truncated total = (true, none))) ∧
    (∀ (events : Nat → logPollEvent) (maxBytes : Int) (i : Nat) (truncated : Bool)
       (total : Int),
       snapshotLoop events maxBytes 0 i truncated total = (true, none)) := by
  refine ⟨?_, ?_, ?_, ?_⟩
  · intro e1 e2 maxBytes h
    exact snapshotLoop_congr e1 e2 _ 1000 0 false 0 (fun t _ ht2 => h t (by omega))
  · intro events maxBytes h
    unfold CollectLogSnapshot
    rw [if_pos h, if_neg (by norm_num)]
  · intro events maxBytes r i truncated total len ts more hev
    refine ⟨?_, ?_, ?_⟩
    · intro hm
      simp only [snapshotLoop, hev]
      rw [if_pos hm]
    · intro hm hl
      simp only [snapshotLoop, hev]
      rw [if_neg (by simp [hm]), if_pos hl]
    · intro hm hl hb
      simp only [snapshotLoop, hev]
      rw [if_neg (by simp [hm]), if_neg hl, if_pos hb]
  · intro events maxBytes i truncated total
    rfl

theorem c8_snapshot_contract_witness :
    (CollectLogSnapshot (fun _ => .chunk 1 none true) 100 =
      CollectLogSnapshot (fun i => if i < 1000 then .chunk 1 none true else .ctxDone "x") 100) ∧
    ((-5 : Int) ≤ 0 ∧ CollectLogSnapshot (fun _ => .chunk 0 none false) (-5) =
      CollectLogSnapshot (fun _ => .chunk 0 none false) (512 * 1024)) ∧
    snapshotLoop (fun _ => .chunk 0 none false) 100 7 0 false 0 = (false, none) ∧
    snapshotLoop (fun _ => .chunk 0 none true) 100 7 0 false 0 = (true, none) ∧
    snapshotLoop (fun _ => .chunk 3 none true) 2 7 0 false 0 = (true, none) ∧
    snapshotLoop (fun _ => .rangeNotSatisfiable) 100 0 0 false 0 = (true, none) :=
  ⟨c8_snapshot_contract.1 _ _ 100 (fun i hi => by simp [hi]),
   ⟨by decide, c8_snapshot_contract.2.1 _ (-5) (by decide)⟩,
   (c8_snapshot_contract.2.2.1 _ 100 6 0 false 0 0 none false rfl).1 rfl,
   ((c8_snapshot_contract.2.2.1 _ 100 6 0 false 0 0 none true rfl).2.1 rfl rfl),
   ((c8_snapshot_contract.2.2.1 _ 2 6 0 false 0 3 none true rfl).2.2 rfl (by decide) (by decide)),
   c8_snapshot_contract.2.2.2 _ 100 0 false 0⟩

/-! ## HTTP engine crumb handling (internal/jenkins/client.go)

The client's crumb cache is the state; the network is two oracles indexed
by call count: `fetches` for crumb-issuer requests, `execs` for the actual
request executions.  A response status is returned as `.ok code` (resty
does not turn HTTP error statuses into Go errors). -/

structure clientState where
  crumb : Option (String × String)
  crumbUnsupported : Bool
deriving Repr, DecidableEq

inductive crumbFetchResult where
  | err (e : String)
  | ok (field value : String)
  | notFound
  | other (status : String)
deriving Repr, DecidableEq

inductive requestOutcome where
  | err (e : String)
  | status (code : Nat)
deriving Repr, DecidableEq

/-- `needsCrumb`: mutating methods. -/
def needsCrumb (method : String) : Bool :=
  goToUpper method == "POST" || goToUpper method == "PUT" ||
    goToUpper method == "PATCH" || goToUpper method == "DELETE"

/-- `ensureCrumb`: cached crumb, the permanent unsupported marker
(404/405), a 200 requiring both fields, and errors otherwise.  Returns the
crumb to send (if any), the new state and the new fetch count. -/
def ensureCrumb (fetches : Nat → crumbFetchResult) (st : clientState) (fc : Nat) :
    Except String (Option (String × String)) × clientState × Nat :=
  match st.crumb with
  | some cr => (.ok (some cr), st, fc)
  | none =>
      if st.crumbUnsupported then (.ok none, st, fc)
      else
        match fetches fc with
        | .err e => (.error ("fetch crumb: " ++ e), st, fc + 1)
        | .ok field value =>
            if value = "" ∨ field = "" then
              (.error "crumb issuer returned empty data", st, fc + 1)
            else
              (.ok (some (field, value)), ⟨some (field, value), st.crumbUnsupported⟩, fc + 1)
        | .notFound => (.ok none, ⟨st.crumb, true⟩, fc + 1)
        | .other status => (.error ("crumb issuer error: " ++ status), st, fc + 1)

/-- `execute`: attach a crumb for mutating methods, run the request, and on
a 403 with retry still allowed clear the crumb and re-enter once with
retries disabled.  The fuel only bounds that single re-entry (`execute` is
entered with fuel 2 and the retry passes `allowRetry = false`, so the
zero-fuel fallback is unreachable); the result carries the final state and
the fetch/execution counts. -/
def executeF (fetches : Nat → crumbFetchResult) (execs : Nat → requestOutcome)
    (method : String) : Nat → Bool → clientState → Nat → Nat →
    Except String Nat × clientState × Nat × Nat
  | 0, _, st, fc, ec => (.error "retry fuel exhausted", st, fc, ec)
  | fuel + 1, allowRetry, st, fc, ec =>
      if needsCrumb method then
        match ensureCrumb fetches st fc with
        | (.error e, st', fc') => (.error e, st', fc', ec)
        | (.ok _, st', fc') =>
            match execs ec with
            | .err e => (.error e, st', fc', ec + 1)
            | .status code =>
                if code = 403 ∧ allowRetry = true then
                  executeF fetches execs method fuel false
                    ⟨none, st'.crumbUnsupported⟩ fc' (ec + 1)
                else (.ok code, st', fc', ec + 1)
      else
        match execs ec with
        | .err e => (.error e, st, fc, ec + 1)
        | .status code => (.ok code, st, fc, ec + 1)

/-- `Do`'s call: `execute(req, method, path, true)`. -/
def executeClient (fetches : Nat → crumbFetchResult) (execs : Nat → requestOutcome)
    (method : String) (st : clientState) (fc ec : Nat) :
    Except String Nat × clientState × Nat × Nat :=
  executeF fetches execs method 2 true st fc ec

/-- The engine as C2's spec sentence words it (spec-side definition for
comparison): retry once when the status is 401 OR 403, provided a crumb
was actually sent. -/
def executeClaimedF (fetches : Nat → crumbFetchResult) (execs : Nat → requestOutcome)
    (method : String) : Nat → Bool → clientState → Nat → Nat →
    Except String Nat × clientState × Nat × Nat
  | 0, _, st, fc, ec => (.error "retry fuel exhausted", st, fc, ec)
  | fuel + 1, allowRetry, st, fc, ec =>
      if needsCrumb method then
        match ensureCrumb fetches st fc with
        | (.error e, st', fc') => (.error e, st', fc', ec)
        | (.ok sent, st', fc') =>
            match execs ec with
            | .err e => (.error e, st', fc', ec + 1)
            | .status code =>
                if (code = 403 ∨ code = 401) ∧ allowRetry = true ∧ sent.isSome = true then
                  executeClaimedF fetches execs method fuel false
                    ⟨none, st'.crumbUnsupported⟩ fc' (ec + 1)
                else (.ok code, st', fc', ec + 1)
      else
        match execs ec with
        | .err e => (.error e, st, fc, ec + 1)
        | .status code => (.ok code, st, fc, ec + 1)

def executeClaimed (fetches : Nat → crumbFetchResult) (execs : Nat → requestOutcome)
    (method : String) (st : clientState) (fc ec : Nat) :
    Except String Nat × clientState × Nat × Nat :=
  executeClaimedF fetches execs method 2 true st fc ec

def cachedCrumbState : clientState := ⟨some ("Jenkins-Crumb", "abc"), false⟩

def goodFetches : Nat → crumbFetchResult := fun _ => .ok "Jenkins-Crumb" "def"

def execs401 : Nat → requestOutcome := fun _ => .status 401

/-- C2 counterexample: a mutating request with a cached (and therefore
sent) crumb that draws a 401 is NOT retried by the engine — it performs
one execution and keeps the crumb — whereas the claimed policy (retry on
401 or 403 when a crumb was sent) performs a second execution.  Only 403
triggers the retry in this client. -/
theorem c2_crumb_retry_counterexample :
    executeClient goodFetches execs401 "POST" cachedCrumbState 0 0 =
      (.ok 401, cachedCrumbState, 0, 1) ∧
    executeClaimed goodFetches execs401 "POST" cachedCrumbState 0 0 =
      (.ok 401, ⟨some ("Jenkins-Crumb", "def"), false⟩, 1, 2) ∧
    (executeClient goodFetches execs401 "POST" cachedCrumbState 0 0).2.2.2 ≠
      (executeClaimed goodFetches execs401 "POST" cachedCrumbState 0 0).2.2.2 :=
  ⟨rfl, rfl, by decide⟩

/-- C2 amended: the retry policy of `execute`.  For a mutating request with
a cached crumb: a 403 clears the crumb and re-enters exactly once with
retries disabled; any other status (401 included) is returned after a
single execution with the state untouched.  The re-entered call never
retries again, whatever the status.  Non-mutating requests execute once
with no crumb handling. -/
theorem c2_crumb_retry_amended (fetches : Nat → crumbFetchResult)
    (execs : Nat → requestOutcome) (method : String) (st : clientState)
    (fc ec : Nat) (cr : String × String) (code : Nat) :
    (needsCrumb method = true → st.crumb = some cr → execs ec = .status 403 →
      executeClient fetches execs method st fc ec =
        executeF fetches execs method 1 false ⟨none, st.crumbUnsupported⟩ fc (ec + 1)) ∧
    (needsCrumb method = true → st.crumb = some cr → execs ec = .status code →
      code ≠ 403 →
      executeClient fetches execs method st fc ec = (.ok code, st, fc, ec + 1)) ∧
    (∀ (st' st'' : clientState) (fc' fc'' ec' : Nat) (res : Option (String × String)),
      needsCrumb method = true →
      ensureCrumb fetches st' fc' = (.ok res, st'', fc'') →
      execs ec' = .status code →
      executeF fetches execs method 1 false st' fc' ec' = (.ok code, st'', fc'', ec' + 1)) ∧
    (needsCrumb method = false → execs ec = .status code →
      executeClient fetches execs method st fc ec = (.ok code, st, fc, ec + 1)) := by
  refine ⟨?_, ?_, ?_, ?_⟩
  · intro hneeds hcr hex
    simp only [executeClient, executeF, hneeds]
    rw [if_pos trivial]
    simp only [ensureCrumb, hcr]
    rw [hex]
    simp only []
    rw [if_pos ⟨trivial, trivial⟩]
  · intro hneeds hcr hex hcode
    simp only [executeClient, executeF, hneeds]
    rw [if_pos trivial]
    simp only [ensureCrumb, hcr]
    rw [hex]
    simp only []
    rw [if_neg (fun h => hcode h.1)]
  · intro st' st'' fc' fc'' ec' res hneeds hens hex
    simp only [executeF, hneeds]
    rw [if_pos trivial, hens]
    simp only []
    rw [hex]
    simp only []
    rw [if_neg (by simp)]
  · intro hneeds hex
    simp only [executeClient, executeF, hneeds]
    rw [if_neg (by simp), hex]

def e403then200 : Nat → requestOutcome := fun i =>
  if i = 0 then .status 403 else .status 200

def execs403 : Nat → requestOutcome := fun _ => .status 403

def execs200 : Nat → requestOutcome := fun _ => .status 200

theorem c2_crumb_retry_amended_witness :
    executeClient goodFetches e403then200 "POST" cachedCrumbState 0 0 =
      (.ok 200, ⟨some ("Jenkins-Crumb", "def"), false⟩, 1, 2) ∧
    executeClient goodFetches execs401 "DELETE" cachedCrumbState 0 0 =
      (.ok 401, cachedCrumbState, 0, 1) ∧
    executeF goodFetches execs403 "PUT" 1 false cachedCrumbState 0 5 =
      (.ok 403, cachedCrumbState, 0, 6) ∧
    executeClient goodFetches execs200 "GET" cachedCrumbState 3 4 =
      (.ok 200, cachedCrumbState, 3, 5) :=
  ⟨((c2_crumb_retry_amended goodFetches e403then200 "POST" cachedCrumbState 0 0
      ("Jenkins-Crumb", "abc") 200).1 (by decide) rfl rfl).trans (by rfl),
   (c2_crumb_retry_amended goodFetches execs401 "DELETE" cachedCrumbState 0 0
      ("Jenkins-Crumb", "abc") 401).2.1 (by decide) rfl rfl (by decide),
   (c2_crumb_retry_amended goodFetches execs403 "PUT" cachedCrumbState 0 0
      ("Jenkins-Crumb", "abc") 403).2.2.1 cachedCrumbState cachedCrumbState 0 0 5
      (some ("Jenkins-Crumb", "abc")) (by decide) rfl rfl,
   (c2_crumb_retry_amended goodFetches execs200 "GET" cachedCrumbState 3 4
      ("x", "y") 200).2.2.2 (by decide) rfl⟩

/-! ## Job discovery (run/search.go)

The Jenkins tree is an oracle from job path to listing (`""` is the root).
`doublestar.Match` is modelled for the pattern features the discovery
claims exercise: `*` and `?` match within a path component (never across
`/`), other characters literally; the globstar `**` and character classes
are outside this model (no claim pattern uses them). -/

/-- Fuelled glob matcher (`pattern.length + target.length` strictly drops
at each step, so the initial fuel makes the zero-fuel fallback
unreachable). -/
def globMatchF : Nat → List Char → List Char → Bool
  | 0, _, _ => false
  | _ + 1, [], t => t.isEmpty
  | fuel + 1, p :: ps, t =>
      if p = '*' then
        globMatchF fuel ps t ||
          (match t with
           | [] => false
           | c :: ts => if c = '/' then false else globMatchF fuel (p :: ps) ts)
      else
        match t with
        | [] => false
        | c :: ts =>
            if p = '?' then (c != '/') && globMatchF fuel ps ts
            else (c == p) && globMatchF fuel ps ts

def globMatch (pattern target : String) : Bool :=
  globMatchF (pattern.data.length + target.data.length + 1) pattern.data target.data

/-- `strings.Split(s, "/")` (splitting on a single character; empties are
kept, and the empty string yields `[""]`). -/
def splitSlashGo : List Char → List Char → List String
  | [], acc => [String.mk acc.reverse]
  | c :: rest, acc =>
      if c = '/' then String.mk acc.reverse :: splitSlashGo rest []
      else splitSlashGo rest (c :: acc)

def splitSlash (s : String) : List String := splitSlashGo s.data []

/-- `path.Base`: the last non-empty component; `""` gives `"."`, an
all-slash path gives `"/"`. -/
def pathBase (s : String) : String :=
  if s = "" then "."
  else
    match ((splitSlash s).filter (fun c => c ≠ "")).getLast? with
    | some x => x
    | none => "/"

/-- `matchJobGlob`: full-path match, base-name match, intermediate
component match, then folder-relative match. -/
def matchJobGlob (glob folder jobPath : String) : Bool :=
  if glob = "" then true
  else if globMatch glob jobPath then true
  else if globMatch glob (pathBase jobPath) then true
  else if ((splitSlash jobPath).dropLast).any (fun part => globMatch glob part) then true
  else if folder ≠ "" ∧ (folder ++ "/").data.isPrefixOf jobPath.data then
    globMatch glob (String.mk (jobPath.data.drop (folder.data.length + 1)))
  else false

def joinJobPath (parent child : String) : String :=
  if parent = "" then child else parent ++ "/" ++ child

def isMultibranchClass (className : String) : Bool :=
  goContains (goToLower className) "multibranch"

def isFolderClass (className : String) : Bool :=
  goContains (goToLower className) "folder" && !goContains (goToLower className) "multibranch"

/-- A job listing response: 404, another HTTP failure (carrying the status
text), or the children as `(name, _class)` pairs. -/
inductive jobListing where
  | notFound
  | failure (msg : String)
  | jobs (children : List (String × String))

/-- The visited-set guard: append unless already present (`visited` and
`results` always receive the same paths, so one list models both). -/
def addIfNew (results : List String) (p : String) : List String :=
  if results.contains p then results else results ++ [p]

/-- The branch-adding loop of `walkAndAddAllBranches`: the glob plays no
part; only children that are neither folders nor multibranch projects are
added. -/
def branchFold (mbPath : String) (children : List (String × String))
    (results : List String) : List String :=
  children.foldl (fun results child =>
    if !isFolderClass child.2 && !isMultibranchClass child.2 then
      addIfNew results (joinJobPath mbPath child.1)
    else results) results

/-- `walkAndAddAllBranches`: a separate listing call on the multibranch
path; any status ≥ 400 (404 included) is an error here. -/
def walkAndAddAllBranches (env : String → jobListing) (mbPath : String)
    (results : List String) : Except String (List String) :=
  match env mbPath with
  | .notFound => .error ("list branches for " ++ mbPath ++ ": 404 Not Found")
  | .failure msg => .error ("list branches for " ++ mbPath ++ ": " ++ msg)
  | .jobs children => .ok (branchFold mbPath children results)

/-- The `for _, job := range payload.Jobs` loop of `walk`; `walkF` is the
depth-decremented recursive entry. -/
def walkList (walkF : String → Int → List String → Except String (List String))
    (env : String → jobListing) (folderPath jobGlob current : String) (depth : Int) :
    List (String × String) → List String → Except String (List String)
  | [], results => .ok results
  | child :: rest, results =>
      let childPath := joinJobPath current child.1
      let isWanted := matchJobGlob jobGlob folderPath childPath
      if isMultibranchClass child.2 then
        if isWanted then
          match walkAndAddAllBranches env childPath results with
          | .error e => .error e
          | .ok results' =>
              walkList walkF env folderPath jobGlob current depth rest results'
        else
          match walkF childPath (depth + 1) results with
          | .error e => .error e
          | .ok results' =>
              walkList walkF env folderPath jobGlob current depth rest results'
      else if isFolderClass child.2 then
        match walkF childPath (depth + 1) results with
        | .error e => .error e
        | .ok results' => walkList walkF env folderPath jobGlob current depth rest results'
      else
        walkList walkF env folderPath jobGlob current depth rest
          (if isWanted then addIfNew results childPath else results)

/-- The recursive `walk` closure of `discoverJobs`.  Fuel is
`maxDepth - depth + 1`; at zero fuel `depth > maxDepth` already holds, and
the fallback returns the same `nil` the depth check would. -/
def walkJobs (env : String → jobListing) (folderPath jobGlob : String) (maxDepth : Int) :
    Nat → String → Int → List String → Except String (List String)
  | 0, _, _, results => .ok results
  | fuel + 1, current, depth, results =>
      if maxDepth < depth then .ok results
      else
        match env current with
        | .notFound =>
            if current ≠ "" then
              .ok (if matchJobGlob jobGlob folderPath current then addIfNew results current
                else results)
            else .error ("list jobs for " ++ current ++ ": 404 Not Found")
        | .failure msg => .error ("list jobs for " ++ current ++ ": " ++ msg)
        | .jobs children =>
            walkList (walkJobs env folderPath jobGlob maxDepth fuel) env folderPath
              jobGlob current depth children results

/-- Byte-wise (here: char-wise, exact for ASCII data) lexicographic `≤` as
Go compares strings. -/
def charListLe : List Char → List Char → Bool
  | [], _ => true
  | _ :: _, [] => false
  | a :: as, b :: bs =>
      if a.toNat < b.toNat then true
      else if b.toNat < a.toNat then false
      else charListLe as bs

/-- `sort.Strings` (insertion sort). -/
def insertStr (x : String) : List String → List String
  | [] => [x]
  | y :: ys => if charListLe x.data y.data then x :: y :: ys else y :: insertStr x ys

def sortStrings (l : List String) : List String := l.foldr insertStr []

/-- `discoverJobs`: walk from the folder at depth 0, then sort. -/
def discoverJobs (env : String → jobListing) (folderPath jobGlob : String)
    (maxDepth : Int) : Except String (List String) :=
  match walkJobs env folderPath jobGlob maxDepth (maxDepth.toNat + 1) folderPath 0 [] with
  | .error e => .error e
  | .ok results => .ok (sortStrings results)

/-- The §8 discovery tree: `Tools` (folder) › `ada` (multibranch) with
branches `master` and `PR-22`. -/
def env6 : String → jobListing := fun p =>
  if p = "" then .jobs [("Tools", "com.cloudbees.hudson.plugins.folder.Folder")]
  else if p = "Tools" then
    .jobs [("ada", "org.jenkinsci.plugins.workflow.multibranch.WorkflowMultiBranchProject")]
  else if p = "Tools/ada" then
    .jobs [("master", "org.jenkinsci.plugins.workflow.job.WorkflowJob"),
      ("PR-22", "org.jenkinsci.plugins.workflow.job.WorkflowJob")]
  else .notFound

theorem addIfNew_mem_self (results : List String) (p : String) :
    p ∈ addIfNew results p := by
  unfold addIfNew
  by_cases h : results.contains p
  · rw [if_pos h]
    exact List.mem_of_elem_eq_true h
  · rw [if_neg h]
    exact List.mem_append_right results (List.mem_singleton_self p)

theorem addIfNew_mem_mono (results : List String) (p q : String) (h : p ∈ results) :
    p ∈ addIfNew results q := by
  unfold addIfNew
  by_cases hc : results.contains q
  · rw [if_pos hc]; exact h
  · rw [if_neg hc]; exact List.mem_append_left _ h

theorem addIfNew_mem_cases (results : List String) (p q : String)
    (h : p ∈ addIfNew results q) : p ∈ results ∨ p = q := by
  unfold addIfNew at h
  by_cases hc : results.contains q
  · rw [if_pos hc] at h; exact Or.inl h
  · rw [if_neg hc] at h
    rcases List.mem_append.mp h with h | h
    · exact Or.inl h
    · exact Or.inr (List.mem_singleton.mp h)

theorem branchFold_mono (mbPath : String) :
    ∀ (children : List (String × String)) (results : List String) (p : String),
      p ∈ results → p ∈ branchFold mbPath children results := by
  intro children
  induction children with
  | nil => intro results p h; exact h
  | cons child rest ih =>
      intro results p h
      simp only [branchFold, List.foldl_cons]
      by_cases hcl : (!isFolderClass child.2 && !isMultibranchClass child.2) = true
      · rw [if_pos hcl]
        exact ih _ p (addIfNew_mem_mono results p _ h)
      · rw [if_neg hcl]
        exact ih _ p h

theorem branchFold_complete (mbPath : String) :
    ∀ (children : List (String × String)) (results : List String),
      ∀ child ∈ children, isFolderClass child.2 = false →
        isMultibranchClass child.2 = false →
        joinJobPath mbPath child.1 ∈ branchFold mbPath children results := by
  intro children
  induction children with
  | nil => intro results child h; exact absurd h (List.not_mem_nil child)
  | cons c rest ih =>
      intro results child hmem hf hmb
      simp only [branchFold, List.foldl_cons]
      rcases List.mem_cons.mp hmem with he | hmem
      · subst he
        rw [if_pos (by simp [hf, hmb])]
        exact branchFold_mono mbPath rest _ _ (addIfNew_mem_self results _)
      · by_cases hcl : (!isFolderClass c.2 && !isMultibranchClass c.2) = true
        · rw [if_pos hcl]
          exact ih _ child hmem hf hmb
        · rw [if_neg hcl]
          exact ih _ child hmem hf hmb

theorem branchFold_sound (mbPath : String) :
    ∀ (children : List (String × String)) (results : List String) (p : String),
      p ∈ branchFold mbPath children results →
      p ∈ results ∨ ∃ child ∈ children, p = joinJobPath mbPath child.1 ∧
        isFolderClass child.2 = false ∧ isMultibranchClass child.2 = false := by
  intro children
  induction children with
  | nil => intro results p h; exact Or.inl h
  | cons c rest ih =>
      intro results p h
      simp only [branchFold, List.foldl_cons] at h
      by_cases hcl : (!isFolderClass c.2 && !isMultibranchClass c.2) = true
      · rw [if_pos hcl] at h
        rcases ih _ p h with h | ⟨child, hmem, he, hf, hmb⟩
        · rcases addIfNew_mem_cases results p _ h with h | h
          · exact Or.inl h
          · refine Or.inr ⟨c, List.mem_cons_self c rest, h, ?_, ?_⟩
            · simp only [Bool.and_eq_true, Bool.not_eq_true'] at hcl
              exact hcl.1
            · simp only [Bool.and_eq_true, Bool.not_eq_true'] at hcl
              exact hcl.2
        · exact Or.inr ⟨child, List.mem_cons_of_mem c hmem, he, hf, hmb⟩
      · rw [if_neg hcl] at h
        rcases ih _ p h with h | ⟨child, hmem, he, hf, hmb⟩
        · exact Or.inl h
        · exact Or.inr ⟨child, List.mem_cons_of_mem c hmem, he, hf, hmb⟩

theorem ne_joinJobPath (mbPath c : String) (h : mbPath ≠ "") :
    mbPath ≠ joinJobPath mbPath c := by
  intro he
  have hl : mbPath.data.length = (joinJobPath mbPath c).data.length := by rw [← he]
  rw [joinJobPath, if_neg h] at hl
  rw [String.data_append, String.data_append, List.length_append, List.length_append] at hl
  have h1 : ("/" : String).data.length = 1 := rfl
  omega

/-- C9: multibranch discovery.  (a) For a matched multibranch node the
branch enumeration is a separate listing call whose loop applies no glob:
every non-folder, non-multibranch child is emitted, everything emitted is
either pre-existing or such a child, and the multibranch node itself is
never emitted.  (b) The §8 discovery scenario: glob `*ada*` from the root
returns exactly the two branches of `Tools/ada`, sorted.  (c) A multibranch
node that does not match the glob is recursed into, so its children can
still match individually: glob `master` returns just `Tools/ada/master`. -/
theorem c9_discovery :
    (∀ (env : String → jobListing) (mbPath : String) (results : List String)
       (children : List (String × String)) (res : List String),
       env mbPath = .jobs children →
       walkAndAddAllBranches env mbPath results = .ok res →
       (∀ child ∈ children, isFolderClass child.2 = false →
          isMultibranchClass child.2 = false → joinJobPath mbPath child.1 ∈ res) ∧
       (∀ p ∈ res, p ∈ results ∨ ∃ child ∈ children,
          p = joinJobPath mbPath child.1 ∧ isFolderClass child.2 = false ∧
          isMultibranchClass child.2 = false) ∧
       (mbPath ≠ "" → mbPath ∉ results → mbPath ∉ res)) ∧
    discoverJobs env6 "" "*ada*" 10 = .ok ["Tools/ada/PR-22", "Tools/ada/master"] ∧
    discoverJobs env6 "" "master" 10 = .ok ["Tools/ada/master"] := by
  refine ⟨?_, rfl, rfl⟩
  intro env mbPath results children res henv hok
  unfold walkAndAddAllBranches at hok
  rw [henv] at hok
  simp only [Except.ok.injEq] at hok
  subst hok
  refine ⟨?_, ?_, ?_⟩
  · intro child hmem hf hmb
    exact branchFold_complete mbPath children results child hmem hf hmb
  · intro p hp
    exact branchFold_sound mbPath children results p hp
  · intro hne hnotin hmem
    rcases branchFold_sound mbPath children results mbPath hmem with h | ⟨child, _, he, _, _⟩
    · exact hnotin h
    · exact ne_joinJobPath mbPath child.1 hne he

theorem c9_discovery_witness :
    walkAndAddAllBranches env6 "Tools/ada" ([] : List String) =
      .ok ["Tools/ada/master", "Tools/ada/PR-22"] ∧
    "Tools/ada/master" ∈ (["Tools/ada/master", "Tools/ada/PR-22"] : List String) ∧
    "Tools/ada/PR-22" ∈ (["Tools/ada/master", "Tools/ada/PR-22"] : List String) ∧
    "Tools/ada" ∉ (["Tools/ada/master", "Tools/ada/PR-22"] : List String) := by
  have h := c9_discovery.1 env6 "Tools/ada" []
    [("master", "org.jenkinsci.plugins.workflow.job.WorkflowJob"),
     ("PR-22", "org.jenkinsci.plugins.workflow.job.WorkflowJob")]
    ["Tools/ada/master", "Tools/ada/PR-22"] rfl rfl
  refine ⟨rfl, ?_, ?_, h.2.2 (by decide) (by decide)⟩
  · exact h.1 ("master", "org.jenkinsci.plugins.workflow.job.WorkflowJob")
      (by decide) (by decide) (by decide)
  · exact h.1 ("PR-22", "org.jenkinsci.plugins.workflow.job.WorkflowJob")
      (by decide) (by decide) (by decide)

end JK
